import Mathlib

/-!
Verification of the ClariData cleaning/outlier core
(`Utils/automatic_data_processing.py` and `Utils/outlier_utils.py`).

A pandas `DataFrame` is embedded column-major: a row-label list `idx` and an
ordered list of named, dtyped columns whose cell lists are aligned with `idx`.
A cell is `na` (NaN), a rational number, or a string.  Machine floats are
modelled by `ℚ`; the source only compares, averages and interpolates finitely
many input values, so no irrational value ever arises except through
`std`/`skew`, whose uses are guarded comparisons that are encoded square-free
(see `zscoreMaskCell` and `skewNeedsZ` below).
-/

namespace CD

inductive Val where
  | na : Val
  | num : ℚ → Val
  | str : String → Val
deriving DecidableEq

inductive Dtype where
  | num : Dtype
  | obj : Dtype
  | cat : Dtype
deriving DecidableEq

structure DF where
  idx : List Nat
  cols : List (String × Dtype × List Val)
deriving DecidableEq

def isna : Val → Bool
  | .na => true
  | _ => false

def colNames (df : DF) : List String :=
  df.cols.map (·.1)

def getCol (df : DF) (c : String) : Option (List Val) :=
  (df.cols.find? (fun p => p.1 == c)).map (·.2.2)

def getColD (df : DF) (c : String) : List Val :=
  (getCol df c).getD []

def dtypeOf (df : DF) (c : String) : Option Dtype :=
  (df.cols.find? (fun p => p.1 == c)).map (·.2.1)

def dtypeD (df : DF) (c : String) : Dtype :=
  (dtypeOf df c).getD Dtype.num

def nrows (df : DF) : ℕ :=
  df.idx.length

/-- `df_clean[col].isna().sum()`. -/
def missCount (df : DF) (c : String) : ℕ :=
  (getColD df c).countP isna

/-- `series.dropna()`. -/
def nonNA (cs : List Val) : List Val :=
  cs.filter (fun v => !isna v)

/-- The rational values of a column's non-missing numeric cells. -/
def nums (cs : List Val) : List ℚ :=
  cs.filterMap (fun v => match v with | .num q => some q | _ => none)

/-- `series.nunique()` (pandas drops NaN before counting distinct values). -/
def nunique (cs : List Val) : ℕ :=
  (nonNA cs).dedup.length

/-- `is_categorical(series)`: object dtype, categorical dtype, or fewer than
20 distinct values. -/
def is_categorical (d : Dtype) (cs : List Val) : Bool :=
  d == Dtype.obj || d == Dtype.cat || decide (nunique cs < 20)

/-- Keep the elements of `xs` whose aligned bit in `keep` is `true`
(boolean-mask row selection). -/
def maskFilter : List Bool → List Val → List Val
  | true :: ks, x :: xs => x :: maskFilter ks xs
  | false :: ks, _ :: xs => maskFilter ks xs
  | _, _ => []

def maskFilterN : List Bool → List Nat → List Nat
  | true :: ks, x :: xs => x :: maskFilterN ks xs
  | false :: ks, _ :: xs => maskFilterN ks xs
  | _, _ => []

/-- Row selection by a boolean mask (`df.loc[mask]`): the labels and every
column are filtered by the same mask. -/
def filterRows (df : DF) (keep : List Bool) : DF :=
  ⟨maskFilterN keep df.idx,
   df.cols.map (fun p => (p.1, p.2.1, maskFilter keep p.2.2))⟩

/-- `df.dropna(subset=[c])`: keep the rows whose value in `c` is not NaN. -/
def dropnaSubset (df : DF) (c : String) : DF :=
  match getCol df c with
  | none => df
  | some cs => filterRows df (cs.map (fun v => !isna v))

/-- `df.drop(columns=[c])`: remove the column, rows untouched. -/
def dropColumn (df : DF) (c : String) : DF :=
  ⟨df.idx, df.cols.filter (fun p => !(p.1 == c))⟩

/-- `df[c].fillna(v, inplace=True)`: replace the NaN cells of column `c`. -/
def fillCol (df : DF) (c : String) (v : Val) : DF :=
  ⟨df.idx,
   df.cols.map (fun p =>
     if p.1 == c then (p.1, p.2.1, p.2.2.map (fun x => if isna x then v else x))
     else p)⟩

/-! Rational arithmetic is written through `mkRat`/`Rat.divInt` so that every
definition evaluates by kernel reduction (`decide`); the bridge lemmas
`qadd_eq`, `qsub_eq`, `qmul_eq`, `qdiv_eq`, `qsum_eq` in the theorem section
identify these with the ordinary field operations of `ℚ`. -/

def qadd (a b : ℚ) : ℚ := mkRat (a.num * b.den + b.num * a.den) (a.den * b.den)

def qsub (a b : ℚ) : ℚ := mkRat (a.num * b.den - b.num * a.den) (a.den * b.den)

def qmul (a b : ℚ) : ℚ := mkRat (a.num * b.num) (a.den * b.den)

def qdiv (a b : ℚ) : ℚ := Rat.divInt (a.num * b.den) (a.den * b.num)

def qsum (xs : List ℚ) : ℚ := xs.foldr qadd 0

/-- Insertion sort on rationals (used for median and quantiles). -/
def insertQ (q : ℚ) : List ℚ → List ℚ
  | [] => [q]
  | x :: xs => if q ≤ x then q :: x :: xs else x :: insertQ q xs

def sortQ (xs : List ℚ) : List ℚ :=
  xs.foldr insertQ []

/-- `Series.median()`: middle of the sorted non-missing values, averaging the
two middle elements for an even count; undefined (NaN) on an empty series. -/
def median (xs : List ℚ) : Option ℚ :=
  let s := sortQ xs
  let n := s.length
  if n = 0 then none
  else if n % 2 = 1 then some (s.getD (n / 2) 0)
  else some (qdiv (qadd (s.getD (n / 2 - 1) 0) (s.getD (n / 2) 0)) 2)

/-- `Series.mean()` over the non-missing values; NaN on an empty series. -/
def meanQ (xs : List ℚ) : Option ℚ :=
  if xs.length = 0 then none else some (qdiv (qsum xs) (xs.length : ℚ))

/-- The sample variance (`Series.std()` squared, `ddof=1`); NaN (`none`) when
fewer than two values are present.  The source only ever tests `std == 0 or
isna(std)` and compares `|z| > thresh`, both of which are expressed through
the variance, so the square root itself is never needed. -/
def varS (xs : List ℚ) : Option ℚ :=
  if xs.length < 2 then none
  else
    some (qdiv
      (qsum (xs.map (fun x =>
        qmul (qsub x (qdiv (qsum xs) (xs.length : ℚ)))
             (qsub x (qdiv (qsum xs) (xs.length : ℚ))))))
      ((xs.length - 1 : ℕ) : ℚ))

/-- Total order on cell values mirroring the sort used by `Series.mode()`
(numbers before strings; NaN never occurs among mode candidates). -/
def valLt : Val → Val → Bool
  | .na, .na => false
  | .na, _ => true
  | .num _, .na => false
  | .num a, .num b => decide (a < b)
  | .num _, .str _ => true
  | .str a, .str b => decide (a < b)
  | .str _, _ => false

/-- `Series.mode()[0]`: the smallest among the most frequent non-missing
values; `none` iff the series has no non-missing value. -/
def mode (cs : List Val) : Option Val :=
  match nonNA cs with
  | [] => none
  | y :: _ =>
    some ((nonNA cs).foldl
      (fun b x =>
        if (nonNA cs).count b < (nonNA cs).count x
            ∨ ((nonNA cs).count b = (nonNA cs).count x ∧ valLt x b) then x
        else b) y)

/-- `round(q, 1)`.  Python rounds ties to even; the two differ only at exact
multiples of 1/20, which no theorem below depends on. -/
def round1 (q : ℚ) : ℚ :=
  mkRat (Rat.floor (qadd (qmul q 10) (mkRat 1 2))) 10

/-- `if target_col and col == target_col` — Python truthiness makes an empty
target name behave like no target. -/
def targetHit (t : Option String) (c : String) : Bool :=
  match t with
  | none => false
  | some s => !(s == "") && (c == s)

inductive CAction where
  | dropTarget : ℕ → CAction
  | droppedRows : ℕ → CAction
  | filledMedian : ℚ → CAction
  | medianUndef : CAction
  | filledMode : Val → CAction
  | modeEmpty : CAction
  | colDropped : CAction
  | leftUnchanged : CAction
deriving DecidableEq

structure CEntry where
  column : String
  missing_count : ℕ
  pct_missing : ℚ
  action : CAction
deriving DecidableEq

/-- The percentage `miss / total * 100` tested by the cascade. -/
def pctOf (miss total : ℕ) : ℚ :=
  qmul (qdiv (miss : ℚ) (total : ℚ)) 100

/-- One iteration of the `standard_auto_cleaning` loop body for column `c`:
`total` is `len(df_clean)` captured once before the loop, while the missing
count is taken from the current working frame `st`. -/
def cleanStep (total : ℕ) (t : Option String) (st : DF) (c : String) :
    DF × Option CEntry :=
  if missCount st c = 0 then (st, none)
  else if targetHit t c then
    (dropnaSubset st c,
     some ⟨c, missCount st c, round1 (pctOf (missCount st c) total),
           .dropTarget (nrows st - nrows (dropnaSubset st c))⟩)
  else if pctOf (missCount st c) total < 5 then
    (dropnaSubset st c,
     some ⟨c, missCount st c, round1 (pctOf (missCount st c) total),
           .droppedRows (nrows st - nrows (dropnaSubset st c))⟩)
  else if pctOf (missCount st c) total < 20 then
    if dtypeD st c = Dtype.num ∧ is_categorical (dtypeD st c) (getColD st c) = false then
      match median (nums (getColD st c)) with
      | some v =>
        (fillCol st c (.num v),
         some ⟨c, missCount st c, round1 (pctOf (missCount st c) total), .filledMedian v⟩)
      | none =>
        (st, some ⟨c, missCount st c, round1 (pctOf (missCount st c) total), .medianUndef⟩)
    else
      match mode (getColD st c) with
      | some m =>
        (fillCol st c m,
         some ⟨c, missCount st c, round1 (pctOf (missCount st c) total), .filledMode m⟩)
      | none =>
        (st, some ⟨c, missCount st c, round1 (pctOf (missCount st c) total), .modeEmpty⟩)
  else if 50 ≤ pctOf (missCount st c) total then
    (dropColumn st c,
     some ⟨c, missCount st c, round1 (pctOf (missCount st c) total), .colDropped⟩)
  else
    (st, some ⟨c, missCount st c, round1 (pctOf (missCount st c) total), .leftUnchanged⟩)

/-- The column loop of `standard_auto_cleaning`. -/
def sacAux (total : ℕ) (t : Option String) (st : DF) : List String → DF × List CEntry
  | [] => (st, [])
  | c :: cs =>
    let p := cleanStep total t st c
    let r := sacAux total t p.1 cs
    (r.1, match p.2 with | none => r.2 | some e => e :: r.2)

/-- `standard_auto_cleaning(df, target_col)`: iterates over the columns of the
original `df`; `total` is the row count of the copy taken before the loop. -/
def standard_auto_cleaning (df : DF) (t : Option String) : DF × List CEntry :=
  sacAux (nrows df) t df (colNames df)

/-- State of the pass after the first `k` columns have been processed. -/
def sacUpTo (df : DF) (t : Option String) (k : ℕ) : DF × List CEntry :=
  sacAux (nrows df) t df ((colNames df).take k)

/-! ### Manual missing-value operations -/

inductive FillMethod where
  | mean : FillMethod
  | median : FillMethod
  | mode : FillMethod
  | constant : FillMethod
  | unknown : FillMethod
deriving DecidableEq

def fillWithOpt (df : DF) (c : String) : Option Val → DF
  | none => df
  | some v => fillCol df c v

/-- One iteration of the `fill_na` loop: absent columns are skipped
(`continue`), `mean`/`median` only act on numeric columns, `mode` is a no-op
when the mode is empty, and an empty `mean`/`median` (NaN) fills nothing. -/
def fill_na_one (df : DF) (c : String) (m : FillMethod) (constant_value : Val) : DF :=
  match getCol df c with
  | none => df
  | some cells =>
    match m with
    | .mean =>
      if dtypeD df c = Dtype.num then fillWithOpt df c ((meanQ (nums cells)).map Val.num)
      else df
    | .median =>
      if dtypeD df c = Dtype.num then fillWithOpt df c ((median (nums cells)).map Val.num)
      else df
    | .mode => fillWithOpt df c (mode cells)
    | .constant => fillCol df c constant_value
    | .unknown => fillCol df c (.str "unknown")

def fill_na (df : DF) (cols : List String) (m : FillMethod) (v : Val) : DF :=
  cols.foldl (fun d c => fill_na_one d c m v) df

/-- `df.dropna(subset=subset)`: keep the rows that are non-missing in every
column of `subset`. -/
def keepAll (df : DF) (subset : List String) : List Bool :=
  subset.foldl
    (fun keep c => List.zipWith (· && ·) keep ((getColD df c).map (fun v => !isna v)))
    (df.idx.map (fun _ => true))

def dropnaMulti (df : DF) (subset : List String) : DF :=
  filterRows df (keepAll df subset)

/-- `drop_rows_na`: the subset is pre-filtered to the existing columns. -/
def drop_rows_na (df : DF) (cols : List String) : DF :=
  dropnaMulti df (cols.filter (fun c => (colNames df).contains c))

/-- `drop_cols_na`: drop the listed columns that exist. -/
def drop_cols_na (df : DF) (cols : List String) : DF :=
  let toDrop := cols.filter (fun c => (colNames df).contains c)
  ⟨df.idx, df.cols.filter (fun p => !(toDrop.contains p.1))⟩

/-- `df.drop(columns=cols, errors="ignore")`. -/
def drop_selected_cols (df : DF) (cols : List String) : DF :=
  ⟨df.idx, df.cols.filter (fun p => !(cols.contains p.1))⟩

def rowAt (df : DF) (i : ℕ) : List Val :=
  df.cols.map (fun p => p.2.2.getD i Val.na)

/-- `df.drop_duplicates().reset_index(drop=True)`: keep the first occurrence
of each full row, then renumber the index. -/
def remove_duplicates (df : DF) : DF :=
  let keep := (List.range (nrows df)).map (fun i => decide (∀ j < i, rowAt df j ≠ rowAt df i))
  let f := filterRows df keep
  ⟨List.range f.idx.length, f.cols⟩

/-! ### Outlier engine -/

/-- `Series.quantile(q)` with the default linear interpolation; NaN (`none`)
on an empty series.  Callers pass `q ∈ [0,1]`. -/
def quantileQ (q : ℚ) (xs : List ℚ) : Option ℚ :=
  let s := sortQ xs
  let n := s.length
  if n = 0 then none
  else
    let h : ℚ := qmul q (qsub (n : ℚ) 1)
    let i : ℕ := (Rat.floor h).toNat
    let lo := s.getD i 0
    let hi := s.getD (i + 1) lo
    some (qadd lo (qmul (qsub h (mkRat (Rat.floor h) 1)) (qsub hi lo)))

/-- The per-column mask of `detect_outliers_iqr`: quantiles over the
non-missing values, bounds `Q1 - 1.5·IQR` / `Q3 + 1.5·IQR`, mask true where
the value is strictly outside; NaN compares false on both sides, and an
empty column gives NaN bounds, hence an all-false mask. -/
def iqrMask (cells : List Val) (qlow qhigh : ℚ) : List Bool :=
  let series := nums cells
  match quantileQ qlow series, quantileQ qhigh series with
  | some q1, some q3 =>
    let lower := qsub q1 (qmul (mkRat 3 2) (qsub q3 q1))
    let upper := qadd q3 (qmul (mkRat 3 2) (qsub q3 q1))
    cells.map (fun v => match v with
      | .num x => decide (x < lower ∨ upper < x)
      | _ => false)
  | _, _ => cells.map (fun _ => false)

/-- `detect_outliers_iqr(df, cols, q_low, q_high)`; `df[col]` on an absent
column raises a `KeyError`. -/
def detect_outliers_iqr (df : DF) (cols : List String) (qlow qhigh : ℚ) :
    Except String (List (String × List Bool)) :=
  match cols with
  | [] => .ok []
  | c :: cs =>
    match getCol df c with
    | none => .error ("KeyError: " ++ c)
    | some cells => do
      let rest ← detect_outliers_iqr df cs qlow qhigh
      .ok ((c, iqrMask cells qlow qhigh) :: rest)

/-- The per-column mask of `detect_outliers_zscore`.  `mean`/`std` skip NaN;
when `std` is zero or undefined the mask is all-false.  `|x-μ|/σ > z` is
encoded square-free as `z² σ² < (x-μ)²` (equivalent for `z ≥ 0`; a negative
threshold flags every numeric cell, which the `z < 0` disjunct mirrors);
NaN cells are never flagged. -/
def zscoreMask (cells : List Val) (z : ℚ) : List Bool :=
  match meanQ (nums cells), varS (nums cells) with
  | some μ, some v =>
    if v = 0 then cells.map (fun _ => false)
    else
      cells.map (fun w => match w with
        | .num x => decide (z < 0 ∨ qmul (qmul z z) v < qmul (qsub x μ) (qsub x μ))
        | _ => false)
  | _, _ => cells.map (fun _ => false)

def detect_outliers_zscore (df : DF) (cols : List String) (z : ℚ) :
    Except String (List (String × List Bool)) :=
  match cols with
  | [] => .ok []
  | c :: cs =>
    match getCol df c with
    | none => .error ("KeyError: " ++ c)
    | some cells => do
      let rest ← detect_outliers_zscore df cs z
      .ok ((c, zscoreMask cells z) :: rest)

/-- `np.logical_or.reduce` over the masks followed by `cleaned.loc[~combined]`.
Over an empty column list the reduce yields a scalar, not a row mask, and the
subsequent `.loc` lookup is not a row selection: modelled as failure. -/
def removeByMasks (df : DF) (masks : List (String × List Bool)) : Except String DF :=
  match masks with
  | [] => .error "logical_or.reduce over no masks yields a scalar, not a row mask"
  | m :: ms =>
    let combined := ms.foldl (fun acc p => List.zipWith (· || ·) acc p.2) m.2
    .ok (filterRows df (combined.map (fun b => !b)))

def remove_outliers_iqr (df : DF) (cols : List String) (qlow qhigh : ℚ) :
    Except String DF := do
  let masks ← detect_outliers_iqr df cols qlow qhigh
  removeByMasks df masks

def remove_outliers_zscore (df : DF) (cols : List String) (z : ℚ) :
    Except String DF := do
  let masks ← detect_outliers_zscore df cols z
  removeByMasks df masks

/-- `cap_outliers` body for one column: clip to the IQR bounds; NaN cells are
left NaN (and an all-missing column has NaN bounds, clipping nothing).
`capped[col]` on an absent column raises a `KeyError`, like the other
outlier operations. -/
def capCol (df : DF) (c : String) (qlow qhigh : ℚ) : Except String DF :=
  match getCol df c with
  | none => .error ("KeyError: " ++ c)
  | some cells =>
    let series := nums cells
    match quantileQ qlow series, quantileQ qhigh series with
    | some q1, some q3 =>
      let lower := qsub q1 (qmul (mkRat 3 2) (qsub q3 q1))
      let upper := qadd q3 (qmul (mkRat 3 2) (qsub q3 q1))
      .ok ⟨df.idx,
        df.cols.map (fun p =>
          if p.1 == c then
            (p.1, p.2.1, p.2.2.map (fun v => match v with
              | .num x => Val.num (max lower (min x upper))
              | w => w))
          else p)⟩
    | _, _ => .ok df

def cap_outliers (df : DF) (cols : List String) (qlow qhigh : ℚ) :
    Except String DF :=
  match cols with
  | [] => .ok df
  | c :: cs => do
    let d ← capCol df c qlow qhigh
    cap_outliers d cs qlow qhigh

/-- `np.percentile(xs, p)`: linear interpolation at `p/100`; raises on an
empty array or an out-of-range `p`. -/
def percentileQ (p : ℚ) (xs : List ℚ) : Except String ℚ :=
  if xs.isEmpty then .error "percentile of an empty array"
  else if 0 ≤ p ∧ p ≤ 100 then .ok ((quantileQ (qdiv p 100) xs).getD 0)
  else .error "percentile out of range"

/-- `remove_outliers_percentile`: sequentially per column, keep the rows whose
value lies inside the percentile bounds of the *current* (already narrowed)
data; a NaN satisfies neither comparison and is dropped. -/
def remove_outliers_percentile (df : DF) (cols : List String) (plow phigh : ℚ) :
    Except String DF :=
  match cols with
  | [] => .ok df
  | c :: cs =>
    match getCol df c with
    | none => .error ("KeyError: " ++ c)
    | some cells => do
      let lowv ← percentileQ plow (nums cells)
      let highv ← percentileQ phigh (nums cells)
      let keep := cells.map (fun v => match v with
        | .num x => decide (lowv ≤ x ∧ x ≤ highv)
        | _ => false)
      remove_outliers_percentile (filterRows df keep) cs plow phigh

inductive OLog where
  | removedE : String → String → ℕ → OLog
  | zNote : String → OLog
  | errE : String → String → OLog
deriving DecidableEq

/-- The `try` block of the `run_auto_outlier_removal` loop for one column:
skewness-based method choice (`|skew| < 1 ↔ m3² < m2³` for `m2 > 0`; a
constant column has `skew = NaN`, which fails the `< 1` test and selects
IQR), then detection and removal on the current dataset.  Empty detection
logs nothing; a degenerate Z-score std logs a note and removes nothing. -/
def autoTryBody (z : ℚ) (df : DF) (c : String) :
    Except String (DF × List OLog × List (String × ℕ)) :=
  let cells := getColD df c
  let s := nums cells
  let μ := qdiv (qsum s) (s.length : ℚ)
  let m2 := qdiv (qsum (s.map (fun x => qmul (qsub x μ) (qsub x μ)))) (s.length : ℚ)
  let m3 := qdiv (qsum (s.map (fun x => qmul (qmul (qsub x μ) (qsub x μ)) (qsub x μ))))
    (s.length : ℚ)
  if 0 < m2 ∧ qmul m3 m3 < qmul (qmul m2 m2) m2 then
    match varS s with
    | none => .ok (df, [.zNote c], [])
    | some v =>
      if v = 0 then .ok (df, [.zNote c], [])
      else
        let mask := cells.map (fun w => match w with
          | .num x => decide (z < 0 ∨ qmul (qmul z z) v < qmul (qsub x μ) (qsub x μ))
          | _ => false)
        let removed := mask.count true
        if 0 < removed then
          .ok (filterRows df (mask.map (fun b => !b)),
               [.removedE c "Z-score" removed], [(c, removed)])
        else .ok (df, [], [])
  else
    let mask := iqrMask cells (mkRat 1 4) (mkRat 3 4)
    let removed := mask.count true
    if 0 < removed then
      .ok (filterRows df (mask.map (fun b => !b)),
           [.removedE c "IQR" removed], [(c, removed)])
    else .ok (df, [], [])

/-- The column loop of `run_auto_outlier_removal` with the content of the
`try` block abstracted as `body`: a column whose non-missing part is empty is
skipped, a successful body advances the dataset, and an exception is caught
at column granularity, logged as `{column, method: "auto", error}`, and the
remaining columns are processed with the dataset unchanged. -/
def outlierFold (body : DF → String → Except String (DF × List OLog × List (String × ℕ))) :
    DF → List String → List (String × ℕ) × List OLog × DF
  | df, [] => ([], [], df)
  | df, c :: cs =>
    if (nums (getColD df c)).isEmpty then outlierFold body df cs
    else
      match body df c with
      | .ok (df', lg, bf) =>
        let r := outlierFold body df' cs
        (bf ++ r.1, lg ++ r.2.1, r.2.2)
      | .error e =>
        let r := outlierFold body df cs
        (r.1, .errE c e :: r.2.1, r.2.2)

def numericCols (df : DF) : List String :=
  (df.cols.filter (fun p => p.2.1 == Dtype.num)).map (·.1)

def run_auto_outlier_removal (df : DF) (z : ℚ) :
    List (String × ℕ) × List OLog × DF :=
  outlierFold (autoTryBody z) df (numericCols df)

/-! ### Object store

The Python caller passes one mutable `DataFrame` object; each operation
copies it (`df.copy()`) and performs its in-place edits (`inplace=True`,
column `__setitem__`) on the copy only, or builds its result purely from
reads.  The store assigns each allocated frame a reference; `copyThen`
mirrors copy-then-edit bodies, `pureAlloc` mirrors read-only bodies, and
`exceptAlloc` mirrors read-only bodies that may raise. -/

structure Store where
  mem : ℕ → Option DF
  next : ℕ

def getRef (st : Store) (r : ℕ) : Option DF := st.mem r

def getRefD (st : Store) (r : ℕ) : DF := (st.mem r).getD ⟨[], []⟩

def setRef (st : Store) (r : ℕ) (d : DF) : Store :=
  ⟨fun i => if i = r then some d else st.mem i, st.next⟩

def allocS (st : Store) (d : DF) : Store × ℕ :=
  (⟨fun i => if i = st.next then some d else st.mem i, st.next + 1⟩, st.next)

def applyEdits (st : Store) (r : ℕ) : List (DF → DF) → Store
  | [] => st
  | e :: es => applyEdits (setRef st r (e (getRefD st r))) r es

def copyThen (mk : DF → List (DF → DF)) (st : Store) (r : ℕ) : Store × ℕ :=
  let p := allocS st (getRefD st r)
  (applyEdits p.1 p.2 (mk (getRefD st r)), p.2)

def pureAlloc (f : DF → DF) (st : Store) (r : ℕ) : Store × ℕ :=
  allocS st (f (getRefD st r))

def exceptAlloc (f : DF → Except String DF) (st : Store) (r : ℕ) :
    Store × Option ℕ :=
  match f (getRefD st r) with
  | .ok d => let p := allocS st d; (p.1, some p.2)
  | .error _ => (st, none)

def standard_auto_cleaning_st (st : Store) (r : ℕ) (t : Option String) : Store × ℕ :=
  copyThen (fun d => (colNames d).map (fun c => fun cur => (cleanStep (nrows d) t cur c).1)) st r

def drop_rows_na_st (st : Store) (r : ℕ) (cols : List String) : Store × ℕ :=
  copyThen (fun _ => [fun cur => drop_rows_na cur cols]) st r

def drop_cols_na_st (st : Store) (r : ℕ) (cols : List String) : Store × ℕ :=
  copyThen (fun _ => [fun cur => drop_cols_na cur cols]) st r

def drop_selected_cols_st (st : Store) (r : ℕ) (cols : List String) : Store × ℕ :=
  pureAlloc (fun d => drop_selected_cols d cols) st r

def fill_na_st (st : Store) (r : ℕ) (cols : List String) (m : FillMethod) (v : Val) :
    Store × ℕ :=
  copyThen (fun _ => cols.map (fun c => fun cur => fill_na_one cur c m v)) st r

def remove_duplicates_st (st : Store) (r : ℕ) : Store × ℕ :=
  pureAlloc remove_duplicates st r

def run_auto_outlier_removal_st (st : Store) (r : ℕ) (z : ℚ) : Store × ℕ :=
  pureAlloc (fun d => (run_auto_outlier_removal d z).2.2) st r

def remove_outliers_iqr_st (st : Store) (r : ℕ) (cols : List String) (ql qh : ℚ) :
    Store × Option ℕ :=
  exceptAlloc (fun d => remove_outliers_iqr d cols ql qh) st r

def remove_outliers_zscore_st (st : Store) (r : ℕ) (cols : List String) (z : ℚ) :
    Store × Option ℕ :=
  exceptAlloc (fun d => remove_outliers_zscore d cols z) st r

def cap_outliers_st (st : Store) (r : ℕ) (cols : List String) (ql qh : ℚ) :
    Store × Option ℕ :=
  exceptAlloc (fun d => cap_outliers d cols ql qh) st r

def remove_outliers_percentile_st (st : Store) (r : ℕ) (cols : List String) (pl ph : ℚ) :
    Store × Option ℕ :=
  exceptAlloc (fun d => remove_outliers_percentile d cols pl ph) st r

/-! ### Well-formed frames and concrete test data -/

def isNumOrNa : Val → Bool
  | .str _ => false
  | _ => true

/-- A sane pandas frame: every column is aligned with the row index, column
names are unique, and a numeric-dtype column holds only numbers and NaN. -/
structure WFdf (df : DF) : Prop where
  aligned : ∀ p ∈ df.cols, p.2.2.length = df.idx.length
  nodupNames : (colNames df).Nodup
  typed : ∀ p ∈ df.cols, p.2.1 = Dtype.num → ∀ v ∈ p.2.2, isNumOrNa v = true

def numCells (xs : List (Option ℚ)) : List Val :=
  xs.map (fun o => o.elim Val.na Val.num)

/-- C1 data: 21 rows; `A` missing at row 0 (4.76% → rows dropped, 20 rows
remain), `B` missing at row 1 only. -/
def dfC1 : DF :=
  ⟨List.range 21,
   [("A", .num, numCells ((List.range 21).map (fun i => if i = 0 then none else some i))),
    ("B", .num, numCells ((List.range 21).map (fun i => if i = 1 then none else some (i + 100))))]⟩

/-- C3 data: 41 rows; `A` missing at rows 0,1 (4.88% → both rows dropped),
`B` missing at rows 1..21 — 21 of 41 rows (51.2%) initially, and 20 of the
39 remaining rows (51.3%) when it is evaluated. -/
def dfC3 : DF :=
  ⟨List.range 41,
   [("A", .num, numCells ((List.range 41).map (fun i => if i ≤ 1 then none else some i))),
    ("B", .num, numCells ((List.range 41).map (fun i =>
      if 1 ≤ i ∧ i ≤ 21 then none else some (i + 7))))]⟩

/-- C3 witness data: one column `Z` with 2 of 4 values missing (exactly 50%). -/
def dfC3w : DF :=
  ⟨List.range 4, [("Z", .num, numCells [none, none, some 1, some 2])]⟩

/-- C4 data: a column whose name is the empty string, 3 of 10 values missing. -/
def dfC4 : DF :=
  ⟨List.range 10,
   [("", .num, numCells ((List.range 10).map (fun i => if i ≤ 2 then none else some i)))]⟩

/-- C4 witness data: target column `tg` with 2 of 4 values missing. -/
def dfC4w : DF :=
  ⟨List.range 4, [("tg", .num, numCells [none, some 1, none, some 2])]⟩

/-- C5 data: 21 rows; `A` missing at row 0 (4.76% → row dropped), `B` missing
at rows 1..10 (47.6% → deferred).  The second pass sees 10 of 20 rows missing
in `B` — exactly 50% — and drops the whole column. -/
def dfC5 : DF :=
  ⟨List.range 21,
   [("A", .num, numCells ((List.range 21).map (fun i => if i = 0 then none else some i))),
    ("B", .num, numCells ((List.range 21).map (fun i =>
      if 1 ≤ i ∧ i ≤ 10 then none else some (i + 50))))]⟩

/-- C2 witness data: one numeric column with a value. -/
def dfC2w : DF := ⟨[0], [("x", .num, [Val.num 1])]⟩

/-- A column state on which a further `cleanStep` is a no-op: either no
missing values remain, or the column sits in the deferred 20-50% band
(non-target, percentage neither below 20 nor at least 50). -/
def GoodCol (total : ℕ) (t : Option String) (d : DF) (c : String) : Prop :=
  missCount d c = 0 ∨
  (targetHit t c = false ∧
   ¬ pctOf (missCount d c) total < 20 ∧
   ¬ 50 ≤ pctOf (missCount d c) total)

/-- C5 witness data: 10 rows, numeric column `y` with one missing value
(10%, filled by mode — no rows dropped). -/
def dfC5w : DF :=
  ⟨List.range 10,
   [("y", .num, numCells [some 2, some 2, none, some 3, some 2, some 4, some 2, some 3, some 2, some 2])]⟩

/-- C6 witness data: 10 rows, numeric column `y` with one missing value (10%)
and 3 distinct values — low cardinality, so the mode (2) is used. -/
def dfC6w : DF :=
  ⟨List.range 10,
   [("y", .num, numCells [some 2, some 2, none, some 3, some 2, some 4, some 2, some 3, some 2, some 2])]⟩

/-- C7 data: 5 rows, numeric column `p` missing at rows 1 and 4. -/
def dfC7 : DF :=
  ⟨List.range 5, [("p", .num, numCells [some 1, none, some 2, some 3, none])]⟩

/-- C8 witness data: constant column `k` (std = 0) and empty column `e`
(std undefined). -/
def dfC8w : DF :=
  ⟨List.range 4,
   [("k", .num, numCells [some 7, some 7, some 7, none]),
    ("e", .num, numCells [none, none, none, none])]⟩

/-- C10 witness data: 5 rows, `p` missing at rows 1 and 4. -/
def dfC10w : DF :=
  ⟨List.range 5, [("p", .num, numCells [some 10, none, some 20, some 30, none])]⟩

/-- C9 witness data: a one-frame store. -/
def stC9w : Store :=
  ⟨fun i => if i = 0 then some dfC4w else none, 1⟩

/-! ## Shared lemmas -/

theorem qadd_eq (a b : ℚ) : qadd a b = a + b := by
  unfold qadd
  rw [Rat.mkRat_eq_div]
  have ha : ((a.den : ℚ)) ≠ 0 := by exact_mod_cast a.den_nz
  have hb : ((b.den : ℚ)) ≠ 0 := by exact_mod_cast b.den_nz
  conv_rhs => rw [← Rat.num_div_den a, ← Rat.num_div_den b]
  push_cast
  field_simp

theorem qsub_eq (a b : ℚ) : qsub a b = a - b := by
  unfold qsub
  rw [Rat.mkRat_eq_div]
  have ha : ((a.den : ℚ)) ≠ 0 := by exact_mod_cast a.den_nz
  have hb : ((b.den : ℚ)) ≠ 0 := by exact_mod_cast b.den_nz
  conv_rhs => rw [← Rat.num_div_den a, ← Rat.num_div_den b]
  push_cast
  field_simp
  ring

theorem qmul_eq (a b : ℚ) : qmul a b = a * b := by
  unfold qmul
  rw [Rat.mkRat_eq_div]
  have ha : ((a.den : ℚ)) ≠ 0 := by exact_mod_cast a.den_nz
  have hb : ((b.den : ℚ)) ≠ 0 := by exact_mod_cast b.den_nz
  conv_rhs => rw [← Rat.num_div_den a, ← Rat.num_div_den b]
  push_cast
  field_simp

theorem qdiv_eq (a b : ℚ) : qdiv a b = a / b := by
  unfold qdiv
  by_cases hb : b = 0
  · subst hb
    simp [Rat.divInt_eq_div]
  · have hbn : b.num ≠ 0 := Rat.num_ne_zero.mpr hb
    have ha : ((a.den : ℚ)) ≠ 0 := by exact_mod_cast a.den_nz
    have hbd : ((b.den : ℚ)) ≠ 0 := by exact_mod_cast b.den_nz
    have hbnq : ((b.num : ℚ)) ≠ 0 := by exact_mod_cast hbn
    rw [Rat.divInt_eq_div]
    conv_rhs => rw [← Rat.num_div_den a, ← Rat.num_div_den b]
    push_cast
    field_simp

theorem qsum_eq (xs : List ℚ) : qsum xs = xs.sum := by
  unfold qsum
  induction xs with
  | nil => rfl
  | cons x xs ih => simp [List.foldr, qadd_eq, ih, List.sum_cons]

theorem pctOf_eq (m n : ℕ) : pctOf m n = (m : ℚ) / (n : ℚ) * 100 := by
  unfold pctOf
  rw [qdiv_eq, qmul_eq]

theorem countP_maskFilter_le (p : Val → Bool) :
    ∀ (ks : List Bool) (xs : List Val), (maskFilter ks xs).countP p ≤ xs.countP p := by
  intro ks
  induction ks with
  | nil => intro xs; simp [maskFilter]
  | cons k ks ih =>
    intro xs
    cases xs with
    | nil => cases k <;> simp [maskFilter]
    | cons x xs =>
      cases k with
      | true =>
        simp only [maskFilter, List.countP_cons]
        exact Nat.add_le_add_right (ih xs) _
      | false =>
        simp only [maskFilter, List.countP_cons]
        exact Nat.le_trans (ih xs) (Nat.le_add_right _ _)

/-- Filtering a column by a mask derived from itself through a predicate that
rejects NaN leaves no NaN behind. -/
theorem countP_maskFilter_self (p : Val → Bool) (hp : ∀ v, isna v = true → p v = false) :
    ∀ (xs : List Val), (maskFilter (xs.map p) xs).countP isna = 0 := by
  intro xs
  induction xs with
  | nil => simp [maskFilter]
  | cons x xs ih =>
    by_cases hx : isna x = true
    · simp only [List.map_cons, hp x hx, maskFilter]
      exact ih
    · have hpx : p x = true ∨ p x = false := by cases p x <;> simp
      rcases hpx with h | h
      · simp only [List.map_cons, h, maskFilter, List.countP_cons]
        simp only [ih]
        simp [hx]
      · simp only [List.map_cons, h, maskFilter]
        exact ih

theorem getCol_some_mem {df : DF} {c : String} {cs : List Val}
    (h : getCol df c = some cs) : c ∈ colNames df := by
  unfold getCol at h
  rcases Option.map_eq_some'.mp h with ⟨p, hp, _⟩
  have hmem := List.mem_of_find?_eq_some hp
  have hc : p.1 == c := by
    have := List.find?_some hp
    exact this
  simp only [colNames, List.mem_map]
  exact ⟨p, hmem, by simpa using hc⟩

theorem find?_filterRows_aux (ks : List Bool) (c : String) :
    ∀ ps : List (String × Dtype × List Val),
      (Option.map (·.2.2)
        ((ps.map (fun p => (p.1, p.2.1, maskFilter ks p.2.2))).find? (fun p => p.1 == c))) =
      (Option.map (·.2.2) (ps.find? (fun p => p.1 == c))).map (fun cs => maskFilter ks cs) := by
  intro ps
  induction ps with
  | nil => rfl
  | cons p ps ih =>
    obtain ⟨n, d, cs⟩ := p
    by_cases h : n == c
    · simp [List.find?, h]
    · simpa [List.find?, h] using ih

theorem getCol_filterRows (df : DF) (ks : List Bool) (c : String) :
    getCol (filterRows df ks) c = (getCol df c).map (fun cs => maskFilter ks cs) := by
  unfold getCol filterRows
  exact find?_filterRows_aux ks c df.cols

theorem getCol_fillCol_ne (df : DF) (c c' : String) (v : Val) (h : c' ≠ c) :
    getCol (fillCol df c v) c' = getCol df c' := by
  unfold getCol fillCol
  simp only
  induction df.cols with
  | nil => rfl
  | cons p ps ih =>
    obtain ⟨n, d, cs⟩ := p
    by_cases hpc : n == c
    · have hp1 : n = c := by simpa using hpc
      have hne : ¬ ((n == c') = true) := by
        simp only [beq_iff_eq, hp1]
        exact fun hh => h hh.symm
      simp only [List.map_cons]
      rw [show ((if (n == c) = true then
          (n, d, cs.map (fun x => if isna x = true then v else x)) else (n, d, cs)) :
          String × Dtype × List Val) =
          (n, d, cs.map (fun x => if isna x = true then v else x)) from by simp [hpc]]
      simp only [List.find?, hne, if_neg]
      simp only [Bool.cond_decide] at *
      simpa [hne] using ih
    · simp only [List.map_cons]
      rw [show ((if (n == c) = true then
          (n, d, cs.map (fun x => if isna x = true then v else x)) else (n, d, cs)) :
          String × Dtype × List Val) = (n, d, cs) from by simp [hpc]]
      by_cases hpc' : n == c'
      · simp [List.find?, hpc']
      · simpa [List.find?, hpc'] using ih

theorem getCol_dropColumn_ne (df : DF) (c c' : String) (h : c' ≠ c) :
    getCol (dropColumn df c) c' = getCol df c' := by
  unfold getCol dropColumn
  simp only
  induction df.cols with
  | nil => rfl
  | cons p ps ih =>
    obtain ⟨n, d, cs⟩ := p
    by_cases hpc : n == c
    · have hp1 : n = c := by simpa using hpc
      have hne : ¬ ((n == c') = true) := by
        simp only [beq_iff_eq, hp1]
        exact fun hh => h hh.symm
      simpa [List.filter, List.find?, hpc, hne] using ih
    · by_cases hpc' : n == c'
      · simp [List.filter, List.find?, hpc, hpc']
      · simpa [List.filter, List.find?, hpc, hpc'] using ih

theorem missCount_eq (df : DF) (c : String) :
    missCount df c = (getColD df c).countP isna := rfl

/-! ## Claim C2 -/

/-- Claim C2 (confirmed): in `run_auto_outlier_removal`, an exception raised
by the per-column `try` body is caught at that column's granularity, recorded
as `{column, method: "auto", error: message}` (`OLog.errE`), leaves the
working dataset unchanged, and the remaining columns are processed exactly as
they otherwise would be — no per-column exception aborts the pass (the fold
is total) or propagates to the caller. -/
theorem c2_exception_isolated
    (body : DF → String → Except String (DF × List OLog × List (String × ℕ)))
    (df : DF) (c : String) (cs : List String) (e : String)
    (hne : (nums (getColD df c)).isEmpty = false)
    (hb : body df c = .error e) :
    outlierFold body df (c :: cs) =
      ((outlierFold body df cs).1,
       OLog.errE c e :: (outlierFold body df cs).2.1,
       (outlierFold body df cs).2.2) := by
  simp [outlierFold, hne, hb]

/-- Witness for C2: a body that always raises produces one error entry per
(non-empty) column, the dataset passes through unchanged, and the second
column is still processed after the first one failed. -/
theorem c2_witness :
    (nums (getColD dfC2w "x")).isEmpty = false ∧
    outlierFold (fun _ _ => Except.error "boom") dfC2w ["x", "x"] =
      ([], [OLog.errE "x" "boom", OLog.errE "x" "boom"], dfC2w) := by
  refine ⟨by decide, ?_⟩
  rw [c2_exception_isolated (fun _ _ => Except.error "boom") dfC2w "x" ["x"] "boom"
    (by decide) rfl]
  rw [c2_exception_isolated (fun _ _ => Except.error "boom") dfC2w "x" [] "boom"
    (by decide) rfl]
  rfl

/-! ## Claim C8 -/

theorem detectZ_mem (df : DF) (z : ℚ) :
    ∀ (cols : List String) (masks : List (String × List Bool)),
      detect_outliers_zscore df cols z = .ok masks →
      ∀ p ∈ masks, p.1 ∈ cols ∧ ∃ cs0, getCol df p.1 = some cs0 ∧ p.2 = zscoreMask cs0 z := by
  intro cols
  induction cols with
  | nil =>
    intro masks h p hp
    simp only [detect_outliers_zscore] at h
    cases h
    simp at hp
  | cons c cs ih =>
    intro masks h p hp
    simp only [detect_outliers_zscore] at h
    cases hcol : getCol df c with
    | none => rw [hcol] at h; cases h
    | some cells =>
      rw [hcol] at h
      cases hrec : detect_outliers_zscore df cs z with
      | error e =>
        rw [hrec] at h
        cases h
      | ok rest =>
        rw [hrec] at h
        simp only [bind, Except.bind] at h
        cases h
        rcases List.mem_cons.mp hp with h1 | h1
        · subst h1
          exact ⟨List.mem_cons_self c cs, cells, hcol, rfl⟩
        · rcases ih rest hrec p h1 with ⟨hm, hrest⟩
          exact ⟨List.mem_cons_of_mem c hm, hrest⟩

theorem detectZ_total (df : DF) (z : ℚ) :
    ∀ cols : List String,
      (∀ c ∈ cols, ∃ cs0, getCol df c = some cs0) →
      ∃ masks, detect_outliers_zscore df cols z = .ok masks := by
  intro cols
  induction cols with
  | nil => intro _; exact ⟨[], rfl⟩
  | cons c cs ih =>
    intro h
    rcases h c (List.mem_cons_self c cs) with ⟨cells, hcol⟩
    rcases ih (fun c' hc' => h c' (List.mem_cons_of_mem c hc')) with ⟨rest, hrest⟩
    refine ⟨(c, zscoreMask cells z) :: rest, ?_⟩
    simp [detect_outliers_zscore, hcol, hrest, bind, Except.bind]

theorem varS_some_meanQ {xs : List ℚ} {v : ℚ} (h : varS xs = some v) :
    meanQ xs = some (qdiv (qsum xs) (xs.length : ℚ)) := by
  unfold varS at h
  unfold meanQ
  by_cases hl : xs.length < 2
  · simp [hl] at h
  · have : xs.length ≠ 0 := by omega
    simp [this]

theorem zscoreMask_degenerate (cells : List Val) (z : ℚ)
    (h : varS (nums cells) = none ∨ varS (nums cells) = some 0) :
    zscoreMask cells z = cells.map (fun _ => false) := by
  unfold zscoreMask
  rcases h with h | h
  · cases hm : meanQ (nums cells) with
    | none => simp [hm, h]
    | some μ => simp [hm, h]
  · rw [varS_some_meanQ h, h]
    simp

/-- Claim C8 (confirmed): `detect_outliers_zscore` never raises when the
requested columns exist, and on a column whose standard deviation is zero or
undefined (constant column, fewer than two non-missing values) the produced
mask is identically false — no row is flagged, and no NaN/∞ from the division
is propagated (the mask is built without dividing at all in that case). -/
theorem c8_zscore_degenerate :
    (∀ (df : DF) (cols : List String) (z : ℚ),
        (∀ c ∈ cols, ∃ cs0, getCol df c = some cs0) →
        ∃ masks, detect_outliers_zscore df cols z = .ok masks)
    ∧ (∀ (df : DF) (cols : List String) (z : ℚ)
          (masks : List (String × List Bool)) (p : String × List Bool),
        detect_outliers_zscore df cols z = .ok masks → p ∈ masks →
        (varS (nums (getColD df p.1)) = none ∨ varS (nums (getColD df p.1)) = some 0) →
        p.2 = (getColD df p.1).map (fun _ => false)) := by
  constructor
  · exact fun df cols z h => detectZ_total df z cols h
  · intro df cols z masks p hok hmem hdeg
    rcases detectZ_mem df z cols masks hok p hmem with ⟨_, cs0, hcol, hmask⟩
    have hd : getColD df p.1 = cs0 := by simp [getColD, hcol]
    rw [hd] at hdeg ⊢
    rw [hmask]
    exact zscoreMask_degenerate cs0 z hdeg

/-- Witness for C8: on the frame with a constant column `k` (std = 0) and an
all-missing column `e` (std undefined), detection succeeds and `k`'s mask is
all-false. -/
theorem c8_witness :
    detect_outliers_zscore dfC8w ["k", "e"] 3 =
      .ok [("k", [false, false, false, false]), ("e", [false, false, false, false])] ∧
    (("k", [false, false, false, false]) : String × List Bool).2 =
      (getColD dfC8w "k").map (fun _ => false) := by
  constructor
  · rfl
  · exact c8_zscore_degenerate.2 dfC8w ["k", "e"] 3
      [("k", [false, false, false, false]), ("e", [false, false, false, false])]
      ("k", [false, false, false, false]) (by rfl) (by decide) (Or.inr (by decide))

/-! ## Claim C6 -/

theorem mode_eq_none_iff (cs : List Val) : mode cs = none ↔ nonNA cs = [] := by
  unfold mode
  cases h : nonNA cs with
  | nil => simp
  | cons y ys => simp

/-- Claim C6 (confirmed): in `auto_clean`'s imputation band (5% ≤ missing
percentage < 20%, non-target column): a numeric column with fewer than 20
distinct values counts as categorical and is filled with its mode rather than
its median; a numeric column with at least 20 distinct values is filled with
its median; a non-numeric column is filled with its mode; and when the mode
is undefined (no non-missing value) the column is left unchanged and the log
entry records `modeEmpty`. -/
theorem c6_imputation_band (st : DF) (total : ℕ) (t : Option String) (c : String)
    (hm : missCount st c ≠ 0)
    (ht : targetHit t c = false)
    (h5 : ¬ ((missCount st c : ℚ) / (total : ℚ) * 100 < 5))
    (h20 : (missCount st c : ℚ) / (total : ℚ) * 100 < 20) :
    (∀ m, dtypeD st c = Dtype.num → nunique (getColD st c) < 20 →
      mode (getColD st c) = some m →
      cleanStep total t st c =
        (fillCol st c m,
         some ⟨c, missCount st c,
               round1 ((missCount st c : ℚ) / (total : ℚ) * 100), .filledMode m⟩))
    ∧ (∀ v, dtypeD st c = Dtype.num → 20 ≤ nunique (getColD st c) →
        median (nums (getColD st c)) = some v →
      cleanStep total t st c =
        (fillCol st c (.num v),
         some ⟨c, missCount st c,
               round1 ((missCount st c : ℚ) / (total : ℚ) * 100), .filledMedian v⟩))
    ∧ (∀ m, dtypeD st c ≠ Dtype.num → mode (getColD st c) = some m →
      cleanStep total t st c =
        (fillCol st c m,
         some ⟨c, missCount st c,
               round1 ((missCount st c : ℚ) / (total : ℚ) * 100), .filledMode m⟩))
    ∧ (mode (getColD st c) = none →
      cleanStep total t st c =
        (st, some ⟨c, missCount st c,
                   round1 ((missCount st c : ℚ) / (total : ℚ) * 100), .modeEmpty⟩)) := by
  rw [← pctOf_eq] at h5 h20
  refine ⟨?_, ?_, ?_, ?_⟩
  · intro m hdt hnu hmode
    have hcat : is_categorical (dtypeD st c) (getColD st c) = true := by
      unfold is_categorical
      simp [hnu]
    unfold cleanStep
    rw [if_neg hm, if_neg (by simp [ht]), if_neg h5, if_pos h20,
      if_neg (by rw [hcat]; simp), hmode, pctOf_eq]
  · intro v hdt hnu hmed
    have hcat : is_categorical (dtypeD st c) (getColD st c) = false := by
      unfold is_categorical
      rw [hdt]
      simp [Nat.not_lt.mpr hnu]
    unfold cleanStep
    rw [if_neg hm, if_neg (by simp [ht]), if_neg h5, if_pos h20,
      if_pos ⟨hdt, hcat⟩, hmed, pctOf_eq]
  · intro m hdt hmode
    unfold cleanStep
    rw [if_neg hm, if_neg (by simp [ht]), if_neg h5, if_pos h20,
      if_neg (by exact fun hand => hdt hand.1), hmode, pctOf_eq]
  · intro hmode
    have hnu : nunique (getColD st c) < 20 := by
      unfold nunique
      rw [(mode_eq_none_iff _).mp hmode]
      simp
    have hcat : is_categorical (dtypeD st c) (getColD st c) = true := by
      unfold is_categorical
      simp [hnu]
    unfold cleanStep
    rw [if_neg hm, if_neg (by simp [ht]), if_neg h5, if_pos h20,
      if_neg (by rw [hcat]; simp), hmode, pctOf_eq]

/-- Witness for C6: a 10-row numeric column with one missing value (10%) and
3 distinct values is filled with its mode 2, not its median. -/
theorem c6_witness :
    missCount dfC6w "y" ≠ 0 ∧
    nunique (getColD dfC6w "y") < 20 ∧
    cleanStep 10 none dfC6w "y" =
      (fillCol dfC6w "y" (.num 2),
       some ⟨"y", 1, 10, .filledMode (.num 2)⟩) := by
  refine ⟨by decide, by decide, ?_⟩
  have h := (c6_imputation_band dfC6w 10 none "y" (by decide) (by decide)
      (by rw [← pctOf_eq]; decide)
      (by rw [← pctOf_eq]; decide)).1
      (.num 2) (by decide) (by decide) (by decide)
  rw [h, ← pctOf_eq]
  have h1 : missCount dfC6w "y" = 1 := by decide
  rw [h1]
  have h2 : round1 (pctOf 1 10) = 10 := by decide
  rw [h2]

/-! ## Claim C7 -/

theorem maskFilter_all_true :
    ∀ (ks : List Bool) (cs : List Val),
      (∀ b ∈ ks, b = true) → cs.length ≤ ks.length → maskFilter ks cs = cs := by
  intro ks
  induction ks with
  | nil =>
    intro cs _ hlen
    cases cs with
    | nil => rfl
    | cons x xs => simp at hlen
  | cons k ks ih =>
    intro cs hall hlen
    cases cs with
    | nil => cases k <;> rfl
    | cons x xs =>
      have hk : k = true := hall k (by simp)
      subst hk
      simp only [maskFilter]
      rw [ih xs (fun b hb => hall b (by simp [hb])) (by simpa using hlen)]

theorem maskFilterN_all_true :
    ∀ (ks : List Bool) (xs : List Nat),
      (∀ b ∈ ks, b = true) → xs.length ≤ ks.length → maskFilterN ks xs = xs := by
  intro ks
  induction ks with
  | nil =>
    intro xs _ hlen
    cases xs with
    | nil => rfl
    | cons x xs => simp at hlen
  | cons k ks ih =>
    intro xs hall hlen
    cases xs with
    | nil => cases k <;> rfl
    | cons x xs =>
      have hk : k = true := hall k (by simp)
      subst hk
      simp only [maskFilterN]
      rw [ih xs (fun b hb => hall b (by simp [hb])) (by simpa using hlen)]

theorem filterRows_all_true (df : DF)
    (halign : ∀ p ∈ df.cols, p.2.2.length = df.idx.length) :
    filterRows df (df.idx.map (fun _ => true)) = df := by
  unfold filterRows
  obtain ⟨idx, cols⟩ := df
  simp only at halign ⊢
  congr 1
  · exact maskFilterN_all_true _ _ (by simp) (by simp)
  · have : ∀ p ∈ cols, (p.1, p.2.1, maskFilter (idx.map (fun _ => true)) p.2.2) = p := by
      intro p hp
      obtain ⟨n, d, cs⟩ := p
      have := halign ⟨n, d, cs⟩ hp
      simp only at this
      simp only [Prod.mk.injEq, true_and]
      exact maskFilter_all_true _ _ (by simp) (by simp [this])
    calc cols.map (fun p => (p.1, p.2.1, maskFilter (idx.map (fun _ => true)) p.2.2))
        = cols.map id := List.map_congr_left this
      _ = cols := List.map_id cols

theorem detectI_err (df : DF) (ql qh : ℚ) :
    ∀ (cols : List String) (c : String), c ∈ cols → getCol df c = none →
      ∃ e, detect_outliers_iqr df cols ql qh = .error e := by
  intro cols
  induction cols with
  | nil => intro c hc; simp at hc
  | cons c0 cs ih =>
    intro c hc hnone
    cases hcol : getCol df c0 with
    | none => exact ⟨"KeyError: " ++ c0, by simp [detect_outliers_iqr, hcol]⟩
    | some cells =>
      have hc' : c ∈ cs := by
        rcases List.mem_cons.mp hc with h | h
        · subst h; rw [hcol] at hnone; cases hnone
        · exact h
      rcases ih c hc' hnone with ⟨e, he⟩
      exact ⟨e, by simp [detect_outliers_iqr, hcol, he, bind, Except.bind]⟩

theorem detectZ_err (df : DF) (z : ℚ) :
    ∀ (cols : List String) (c : String), c ∈ cols → getCol df c = none →
      ∃ e, detect_outliers_zscore df cols z = .error e := by
  intro cols
  induction cols with
  | nil => intro c hc; simp at hc
  | cons c0 cs ih =>
    intro c hc hnone
    cases hcol : getCol df c0 with
    | none => exact ⟨"KeyError: " ++ c0, by simp [detect_outliers_zscore, hcol]⟩
    | some cells =>
      have hc' : c ∈ cs := by
        rcases List.mem_cons.mp hc with h | h
        · subst h; rw [hcol] at hnone; cases hnone
        · exact h
      rcases ih c hc' hnone with ⟨e, he⟩
      exact ⟨e, by simp [detect_outliers_zscore, hcol, he, bind, Except.bind]⟩

/-- Claim C7 (corrected): the missing-value operations do degrade to no-ops —
`fill_na` skips absent columns and an empty list leaves the frame unchanged,
`drop_rows_na` ignores absent columns and drops nothing for an empty list,
and `drop_cols_na` likewise — but the outlier removal operations do not:
`remove_outliers_iqr` and `remove_outliers_zscore` raise a `KeyError` when
any requested column is absent from the dataset. -/
theorem c7_input_shape :
    (∀ (df : DF) (m : FillMethod) (v : Val), fill_na df [] m v = df)
    ∧ (∀ (df : DF) (c : String) (cols : List String) (m : FillMethod) (v : Val),
        getCol df c = none → fill_na df (c :: cols) m v = fill_na df cols m v)
    ∧ (∀ (df : DF) (c : String) (cols : List String),
        (colNames df).contains c = false →
        drop_rows_na df (c :: cols) = drop_rows_na df cols)
    ∧ (∀ df : DF, (∀ p ∈ df.cols, p.2.2.length = df.idx.length) →
        drop_rows_na df [] = df)
    ∧ (∀ (df : DF) (c : String) (cols : List String),
        (colNames df).contains c = false →
        drop_cols_na df (c :: cols) = drop_cols_na df cols)
    ∧ (∀ df : DF, drop_cols_na df [] = df)
    ∧ (∀ (df : DF) (cols : List String) (c : String) (ql qh : ℚ),
        c ∈ cols → getCol df c = none →
        ∃ e, remove_outliers_iqr df cols ql qh = .error e)
    ∧ (∀ (df : DF) (cols : List String) (c : String) (z : ℚ),
        c ∈ cols → getCol df c = none →
        ∃ e, remove_outliers_zscore df cols z = .error e) := by
  refine ⟨?_, ?_, ?_, ?_, ?_, ?_, ?_, ?_⟩
  · intro df m v; rfl
  · intro df c cols m v h
    simp [fill_na, List.foldl, fill_na_one, h]
  · intro df c cols h
    unfold drop_rows_na
    rw [List.filter_cons, if_neg (by rw [h]; simp)]
  · intro df halign
    show dropnaMulti df [] = df
    unfold dropnaMulti keepAll
    simp only [List.foldl]
    exact filterRows_all_true df halign
  · intro df c cols h
    unfold drop_cols_na
    rw [List.filter_cons, if_neg (by rw [h]; simp)]
  · intro df
    unfold drop_cols_na
    obtain ⟨idx, cols⟩ := df
    simp
  · intro df cols c ql qh hc hnone
    rcases detectI_err df ql qh cols c hc hnone with ⟨e, he⟩
    exact ⟨e, by simp [remove_outliers_iqr, he, bind, Except.bind]⟩
  · intro df cols c z hc hnone
    rcases detectZ_err df z cols c hc hnone with ⟨e, he⟩
    exact ⟨e, by simp [remove_outliers_zscore, he, bind, Except.bind]⟩

/-- Counterexample for C7 as stated: `remove_outliers_iqr` on a column name
that is not in the dataset does not degrade to a no-op — it raises a
`KeyError` (and `remove_outliers_zscore` does the same). -/
theorem c7_counterexample :
    remove_outliers_iqr dfC7 ["zzz"] (mkRat 1 4) (mkRat 3 4) = .error "KeyError: zzz" ∧
    remove_outliers_zscore dfC7 ["zzz"] 3 = .error "KeyError: zzz" := by
  constructor <;> rfl

/-- Witness for C7's amended theorem: the no-op clauses at a concrete frame
and the raising clause at a concrete absent column. -/
theorem c7_witness :
    getCol dfC7 "zzz" = none ∧
    fill_na dfC7 ["zzz"] FillMethod.mode Val.na = fill_na dfC7 [] FillMethod.mode Val.na ∧
    drop_rows_na dfC7 [] = dfC7 ∧
    ∃ e, remove_outliers_iqr dfC7 ["zzz"] (mkRat 1 4) (mkRat 3 4) = .error e := by
  refine ⟨by rfl, ?_, ?_, ?_⟩
  · exact c7_input_shape.2.1 dfC7 "zzz" [] FillMethod.mode Val.na (by rfl)
  · exact c7_input_shape.2.2.2.1 dfC7 (by decide)
  · exact c7_input_shape.2.2.2.2.2.2.1 dfC7 ["zzz"] "zzz" (mkRat 1 4) (mkRat 3 4)
      (by simp) (by rfl)

/-! ## Claim C10 -/

theorem rop_missCount_le (pl ph : ℚ) :
    ∀ (cols : List String) (df res : DF) (c' : String),
      remove_outliers_percentile df cols pl ph = .ok res →
      missCount res c' ≤ missCount df c' := by
  intro cols
  induction cols with
  | nil =>
    intro df res c' h
    simp only [remove_outliers_percentile] at h
    cases h
    exact Nat.le_refl _
  | cons c cs ih =>
    intro df res c' h
    simp only [remove_outliers_percentile] at h
    cases hcol : getCol df c with
    | none => simp [hcol] at h
    | some cells =>
      simp only [hcol] at h
      cases hlo : percentileQ pl (nums cells) with
      | error e => simp [hlo, bind, Except.bind] at h
      | ok low =>
        cases hhi : percentileQ ph (nums cells) with
        | error e => simp [hlo, hhi, bind, Except.bind] at h
        | ok high =>
          simp only [hlo, hhi, bind, Except.bind] at h
          have step := ih _ res c' h
          refine Nat.le_trans step ?_
          unfold missCount
          unfold getColD
          rw [getCol_filterRows]
          cases getCol df c' with
          | none => simp
          | some cs' => simpa using countP_maskFilter_le isna _ cs'

theorem rop_selected_zero (pl ph : ℚ) :
    ∀ (cols : List String) (df res : DF),
      remove_outliers_percentile df cols pl ph = .ok res →
      ∀ c ∈ cols, missCount res c = 0 := by
  intro cols
  induction cols with
  | nil => intro df res _ c hc; simp at hc
  | cons c0 cs ih =>
    intro df res h c hc
    simp only [remove_outliers_percentile] at h
    cases hcol : getCol df c0 with
    | none => simp [hcol] at h
    | some cells =>
      simp only [hcol] at h
      cases hlo : percentileQ pl (nums cells) with
      | error e => simp [hlo, bind, Except.bind] at h
      | ok low =>
        cases hhi : percentileQ ph (nums cells) with
        | error e => simp [hlo, hhi, bind, Except.bind] at h
        | ok high =>
          simp only [hlo, hhi, bind, Except.bind] at h
          rcases List.mem_cons.mp hc with rfl | hc'
          · have hz : missCount
                (filterRows df (cells.map (fun v => match v with
                  | .num x => decide (low ≤ x ∧ x ≤ high)
                  | _ => false))) c = 0 := by
              unfold missCount getColD
              rw [getCol_filterRows, hcol]
              simp only [Option.map_some', Option.getD_some]
              exact countP_maskFilter_self _ (by intro v hv; cases v <;> simp_all [isna]) cells
            have := rop_missCount_le pl ph cs _ res c h
            omega
          · exact ih _ res h c hc'

theorem detectI_mem (df : DF) (ql qh : ℚ) :
    ∀ (cols : List String) (masks : List (String × List Bool)),
      detect_outliers_iqr df cols ql qh = .ok masks →
      ∀ p ∈ masks, p.1 ∈ cols ∧ ∃ cs0, getCol df p.1 = some cs0 ∧ p.2 = iqrMask cs0 ql qh := by
  intro cols
  induction cols with
  | nil =>
    intro masks h p hp
    simp only [detect_outliers_iqr] at h
    cases h
    simp at hp
  | cons c cs ih =>
    intro masks h p hp
    simp only [detect_outliers_iqr] at h
    cases hcol : getCol df c with
    | none => rw [hcol] at h; cases h
    | some cells =>
      rw [hcol] at h
      cases hrec : detect_outliers_iqr df cs ql qh with
      | error e => rw [hrec] at h; cases h
      | ok rest =>
        rw [hrec] at h
        simp only [bind, Except.bind] at h
        cases h
        rcases List.mem_cons.mp hp with h1 | h1
        · subst h1
          exact ⟨List.mem_cons_self c cs, cells, hcol, rfl⟩
        · rcases ih rest hrec p h1 with ⟨hm, hrest⟩
          exact ⟨List.mem_cons_of_mem c hm, hrest⟩

theorem getElem?_some_lt {α : Type} {xs : List α} {i : ℕ} {x : α}
    (h : xs[i]? = some x) : i < xs.length := by
  by_contra hc
  push_neg at hc
  rw [List.getElem?_eq_none hc] at h
  cases h

theorem iqrMask_na (cells : List Val) (ql qh : ℚ) (i : ℕ)
    (h : cells[i]? = some Val.na) :
    (iqrMask cells ql qh)[i]? = some false := by
  have hi : i < cells.length := getElem?_some_lt h
  have hc : cells[i] = Val.na := by
    rw [List.getElem?_eq_getElem hi] at h
    exact Option.some.inj h
  unfold iqrMask
  cases hq1 : quantileQ ql (nums cells) with
  | none => simp [hq1, List.getElem?_map, hi, hc]
  | some q1 =>
    cases hq3 : quantileQ qh (nums cells) with
    | none => simp [hq1, hq3, List.getElem?_map, hi, hc]
    | some q3 => simp [hq1, hq3, List.getElem?_map, hi, hc]

theorem zscoreMask_na (cells : List Val) (z : ℚ) (i : ℕ)
    (h : cells[i]? = some Val.na) :
    (zscoreMask cells z)[i]? = some false := by
  have hi : i < cells.length := getElem?_some_lt h
  have hc : cells[i] = Val.na := by
    rw [List.getElem?_eq_getElem hi] at h
    exact Option.some.inj h
  unfold zscoreMask
  cases hm : meanQ (nums cells) with
  | none => simp [hm, List.getElem?_map, hi, hc]
  | some μ =>
    cases hv : varS (nums cells) with
    | none => simp [hm, hv, List.getElem?_map, hi, hc]
    | some v =>
      by_cases hv0 : v = 0
      · simp [hm, hv, hv0, List.getElem?_map, hi, hc]
      · simp [hm, hv, hv0, List.getElem?_map, hi, hc]

theorem zipOr_get_ff :
    ∀ (as bs : List Bool) (i : ℕ), as[i]? = some false → bs[i]? = some false →
      (List.zipWith (· || ·) as bs)[i]? = some false := by
  intro as
  induction as with
  | nil => intro bs i h _; simp at h
  | cons a as ih =>
    intro bs i h1 h2
    cases bs with
    | nil => simp at h2
    | cons b bs =>
      cases i with
      | zero =>
        simp only [List.getElem?_cons_zero, Option.some.injEq] at h1 h2
        subst h1; subst h2
        simp [List.zipWith]
      | succ i =>
        simp only [List.getElem?_cons_succ] at h1 h2
        simp only [List.zipWith, List.getElem?_cons_succ]
        exact ih bs i h1 h2

theorem combined_ff (i : ℕ) :
    ∀ (ms : List (String × List Bool)) (acc : List Bool),
      acc[i]? = some false → (∀ p ∈ ms, p.2[i]? = some false) →
      (ms.foldl (fun a p => List.zipWith (· || ·) a p.2) acc)[i]? = some false := by
  intro ms
  induction ms with
  | nil => intro acc h _; exact h
  | cons m ms ih =>
    intro acc h hall
    simp only [List.foldl]
    exact ih _ (zipOr_get_ff acc m.2 i h (hall m (by simp)))
      (fun p hp => hall p (by simp [hp]))

theorem maskFilterN_mem :
    ∀ (ks : List Bool) (xs : List Nat) (i : ℕ) (x : Nat),
      ks[i]? = some true → xs[i]? = some x → x ∈ maskFilterN ks xs := by
  intro ks
  induction ks with
  | nil => intro xs i x h _; simp at h
  | cons k ks ih =>
    intro xs i x hk hx
    cases xs with
    | nil => simp at hx
    | cons x0 xs =>
      cases i with
      | zero =>
        simp only [List.getElem?_cons_zero, Option.some.injEq] at hk hx
        subst hk; subst hx
        simp [maskFilterN]
      | succ i =>
        simp only [List.getElem?_cons_succ] at hk hx
        cases k with
        | true => exact List.mem_cons_of_mem _ (ih xs i x hk hx)
        | false => exact ih xs i x hk hx

theorem removeByMasks_retains (df : DF) (masks : List (String × List Bool)) (res : DF)
    (i : ℕ) (lbl : Nat)
    (hrem : removeByMasks df masks = .ok res)
    (hlbl : df.idx[i]? = some lbl)
    (hall : ∀ p ∈ masks, p.2[i]? = some false) :
    lbl ∈ res.idx := by
  cases masks with
  | nil => simp [removeByMasks] at hrem
  | cons m ms =>
    simp only [removeByMasks] at hrem
    cases hrem
    have hcomb : (ms.foldl (fun a p => List.zipWith (· || ·) a p.2) m.2)[i]? =
        some false :=
      combined_ff i ms m.2 (hall m (by simp)) (fun p hp => hall p (by simp [hp]))
    have hkeep : ((ms.foldl (fun a p => List.zipWith (· || ·) a p.2) m.2).map
        (fun b => !b))[i]? = some true := by
      rw [List.getElem?_map, hcomb]
      rfl
    exact maskFilterN_mem _ df.idx i lbl hkeep hlbl

/-- Claim C10 (confirmed): `remove_outliers_percentile` removes every row
whose value in a processed column is missing — after a successful call no
selected column retains a NaN — whereas the masks of `detect_outliers_iqr`
and `detect_outliers_zscore` are false on missing entries, so
`remove_outliers_iqr`/`remove_outliers_zscore` retain any row that is missing
in all of the selected columns. -/
theorem c10_percentile_drops_missing :
    (∀ (df : DF) (cols : List String) (pl ph : ℚ) (res : DF),
        remove_outliers_percentile df cols pl ph = .ok res →
        ∀ c ∈ cols, missCount res c = 0)
    ∧ (∀ (df : DF) (cols : List String) (ql qh : ℚ)
          (masks : List (String × List Bool)) (p : String × List Bool) (i : ℕ),
        detect_outliers_iqr df cols ql qh = .ok masks → p ∈ masks →
        (getColD df p.1)[i]? = some Val.na → p.2[i]? = some false)
    ∧ (∀ (df : DF) (cols : List String) (z : ℚ)
          (masks : List (String × List Bool)) (p : String × List Bool) (i : ℕ),
        detect_outliers_zscore df cols z = .ok masks → p ∈ masks →
        (getColD df p.1)[i]? = some Val.na → p.2[i]? = some false)
    ∧ (∀ (df : DF) (cols : List String) (ql qh : ℚ) (res : DF) (i : ℕ) (lbl : Nat),
        remove_outliers_iqr df cols ql qh = .ok res →
        df.idx[i]? = some lbl →
        (∀ c ∈ cols, (getColD df c)[i]? = some Val.na) →
        lbl ∈ res.idx)
    ∧ (∀ (df : DF) (cols : List String) (z : ℚ) (res : DF) (i : ℕ) (lbl : Nat),
        remove_outliers_zscore df cols z = .ok res →
        df.idx[i]? = some lbl →
        (∀ c ∈ cols, (getColD df c)[i]? = some Val.na) →
        lbl ∈ res.idx) := by
  have hiqr : ∀ (df : DF) (cols : List String) (ql qh : ℚ)
      (masks : List (String × List Bool)) (p : String × List Bool) (i : ℕ),
      detect_outliers_iqr df cols ql qh = .ok masks → p ∈ masks →
      (getColD df p.1)[i]? = some Val.na → p.2[i]? = some false := by
    intro df cols ql qh masks p i hok hp hna
    rcases detectI_mem df ql qh cols masks hok p hp with ⟨_, cs0, hcol, hmask⟩
    have : getColD df p.1 = cs0 := by simp [getColD, hcol]
    rw [this] at hna
    rw [hmask]
    exact iqrMask_na cs0 ql qh i hna
  have hzs : ∀ (df : DF) (cols : List String) (z : ℚ)
      (masks : List (String × List Bool)) (p : String × List Bool) (i : ℕ),
      detect_outliers_zscore df cols z = .ok masks → p ∈ masks →
      (getColD df p.1)[i]? = some Val.na → p.2[i]? = some false := by
    intro df cols z masks p i hok hp hna
    rcases detectZ_mem df z cols masks hok p hp with ⟨_, cs0, hcol, hmask⟩
    have : getColD df p.1 = cs0 := by simp [getColD, hcol]
    rw [this] at hna
    rw [hmask]
    exact zscoreMask_na cs0 z i hna
  refine ⟨?_, hiqr, hzs, ?_, ?_⟩
  · intro df cols pl ph res h c hc
    exact rop_selected_zero pl ph cols df res h c hc
  · intro df cols ql qh res i lbl hok hlbl hall
    simp only [remove_outliers_iqr, bind, Except.bind] at hok
    cases hdet : detect_outliers_iqr df cols ql qh with
    | error e => rw [hdet] at hok; cases hok
    | ok masks =>
      rw [hdet] at hok
      refine removeByMasks_retains df masks res i lbl hok hlbl ?_
      intro p hp
      rcases detectI_mem df ql qh cols masks hdet p hp with ⟨hpc, cs0, hcol, hmask⟩
      exact hiqr df cols ql qh masks p i hdet hp (hall p.1 hpc)
  · intro df cols z res i lbl hok hlbl hall
    simp only [remove_outliers_zscore, bind, Except.bind] at hok
    cases hdet : detect_outliers_zscore df cols z with
    | error e => rw [hdet] at hok; cases hok
    | ok masks =>
      rw [hdet] at hok
      refine removeByMasks_retains df masks res i lbl hok hlbl ?_
      intro p hp
      rcases detectZ_mem df z cols masks hdet p hp with ⟨hpc, cs0, hcol, hmask⟩
      exact hzs df cols z masks p i hdet hp (hall p.1 hpc)

/-- Witness for C10: on the 5-row frame with NaN at rows 1 and 4, percentile
trimming with the full `[0,100]` range still drops both NaN rows, while IQR
removal keeps the frame (and in particular row 1) intact. -/
theorem c10_witness :
    remove_outliers_percentile dfC10w ["p"] 0 100 =
      .ok ⟨[0, 2, 3], [("p", Dtype.num, [Val.num 10, Val.num 20, Val.num 30])]⟩ ∧
    missCount (⟨[0, 2, 3], [("p", Dtype.num, [Val.num 10, Val.num 20, Val.num 30])]⟩ : DF)
      "p" = 0 ∧
    remove_outliers_iqr dfC10w ["p"] (mkRat 1 4) (mkRat 3 4) = .ok dfC10w ∧
    (getColD dfC10w "p")[1]? = some Val.na ∧
    (1 : ℕ) ∈ dfC10w.idx := by
  refine ⟨by rfl, ?_, by rfl, by rfl, ?_⟩
  · exact c10_percentile_drops_missing.1 dfC10w ["p"] 0 100
      ⟨[0, 2, 3], [("p", Dtype.num, [Val.num 10, Val.num 20, Val.num 30])]⟩
      (by rfl) "p" (by simp)
  · refine c10_percentile_drops_missing.2.2.2.1 dfC10w ["p"] (mkRat 1 4) (mkRat 3 4)
      dfC10w 1 1 (by rfl) (by rfl) ?_
    intro c hc
    have : c = "p" := by simpa using hc
    subst this
    rfl

/-! ## Claim C1 -/

theorem sacAux_cons (total : ℕ) (t : Option String) (st : DF) (c : String)
    (cs : List String) :
    sacAux total t st (c :: cs) =
      ((sacAux total t (cleanStep total t st c).1 cs).1,
       match (cleanStep total t st c).2 with
       | none => (sacAux total t (cleanStep total t st c).1 cs).2
       | some en => en :: (sacAux total t (cleanStep total t st c).1 cs).2) := rfl

theorem c1_step_entry (total : ℕ) (t : Option String) (st : DF) (c : String) (e : CEntry)
    (h : (cleanStep total t st c).2 = some e) :
    e.column = c ∧ e.missing_count = missCount st c ∧
    e.pct_missing = round1 (pctOf (missCount st c) total) := by
  unfold cleanStep at h
  repeat' split at h
  all_goals first
    | (cases Option.some.inj h; exact ⟨rfl, rfl, rfl⟩)
    | (cases h <;> exact ⟨rfl, rfl, rfl⟩)

theorem sacAux_pct (total : ℕ) (t : Option String) :
    ∀ (cs : List String) (st : DF) (e : CEntry), e ∈ (sacAux total t st cs).2 →
      e.pct_missing = round1 (pctOf e.missing_count total) := by
  intro cs
  induction cs with
  | nil => intro st e he; simp [sacAux] at he
  | cons c cs ih =>
    intro st e he
    rw [sacAux_cons] at he
    cases hp : (cleanStep total t st c).2 with
    | none =>
      rw [hp] at he
      exact ih _ e he
    | some en =>
      rw [hp] at he
      rcases List.mem_cons.mp he with rfl | hmem
      · rcases c1_step_entry total t st c e hp with ⟨_, h2, h3⟩
        rw [h3, h2]
      · exact ih _ e hmem

/-- Claim C1 (corrected): the percentage that selects the remediation action
and is recorded in the log entry has the *current* missing count of the
working frame as numerator, but its denominator is the row count captured
when the pass started (`total = len(df_clean)` before the loop), not the row
count of the working frame at the moment the column is evaluated. -/
theorem c1_pct_denominator :
    (∀ (total : ℕ) (t : Option String) (st : DF) (c : String) (e : CEntry),
        (cleanStep total t st c).2 = some e →
        e.column = c ∧ e.missing_count = missCount st c ∧
        e.pct_missing = round1 ((missCount st c : ℚ) / (total : ℚ) * 100))
    ∧ (∀ (df : DF) (t : Option String) (e : CEntry),
        e ∈ (standard_auto_cleaning df t).2 →
        e.pct_missing = round1 ((e.missing_count : ℚ) / (nrows df : ℚ) * 100)) := by
  constructor
  · intro total t st c e h
    rw [← pctOf_eq]
    exact c1_step_entry total t st c e h
  · intro df t e he
    rw [← pctOf_eq]
    exact sacAux_pct (nrows df) t (colNames df) df e he

/-- Counterexample for C1 as stated: in `dfC1`, processing `A` drops one row
(20 remain), and `B` is then evaluated with 1 missing value; the recorded
percentage is `round(1/21·100) = 4.8` — the pass-start denominator — whereas
the row count at the moment `B` is evaluated is 20, which would give exactly
5 (and would select the imputation band rather than the row-drop branch). -/
theorem c1_counterexample :
    (standard_auto_cleaning dfC1 none).2[1]? =
      some ⟨"B", 1, mkRat 24 5, CAction.droppedRows 1⟩ ∧
    nrows (sacUpTo dfC1 none 1).1 = 20 ∧
    missCount (sacUpTo dfC1 none 1).1 "B" = 1 ∧
    round1 (pctOf 1 20) = 5 ∧
    pctOf 1 20 = (1 : ℚ) / (20 : ℚ) * 100 ∧
    mkRat 24 5 ≠ 5 := by
  refine ⟨by rfl, by rfl, by rfl, by decide, ?_, by decide⟩
  rw [pctOf_eq]
  norm_num

/-- Witness for C1's amended theorem at the same frame: `B`'s recorded
percentage is `round(1/21·100) = 24/5`. -/
theorem c1_witness :
    (⟨"B", 1, mkRat 24 5, CAction.droppedRows 1⟩ : CEntry) ∈
      (standard_auto_cleaning dfC1 none).2 ∧
    (mkRat 24 5 : ℚ) =
      round1 (((1 : ℕ) : ℚ) / ((nrows dfC1 : ℕ) : ℚ) * 100) := by
  constructor
  · decide
  · exact c1_pct_denominator.2 dfC1 none ⟨"B", 1, mkRat 24 5, CAction.droppedRows 1⟩
      (by decide)

/-! ## Claim C3 -/

theorem sacAux_append (total : ℕ) (t : Option String) :
    ∀ (as bs : List String) (st : DF),
      sacAux total t st (as ++ bs) =
        ((sacAux total t (sacAux total t st as).1 bs).1,
         (sacAux total t st as).2 ++ (sacAux total t (sacAux total t st as).1 bs).2) := by
  intro as
  induction as with
  | nil => intro bs st; simp [sacAux]
  | cons a as ih =>
    intro bs st
    rw [List.cons_append, sacAux_cons, sacAux_cons]
    rw [ih bs (cleanStep total t st a).1]
    cases (cleanStep total t st a).2 with
    | none => simp
    | some en => simp

theorem colNames_filterRows (df : DF) (ks : List Bool) :
    colNames (filterRows df ks) = colNames df := by
  simp [colNames, filterRows, List.map_map]

theorem colNames_dropnaSubset (df : DF) (c : String) :
    colNames (dropnaSubset df c) = colNames df := by
  unfold dropnaSubset
  cases getCol df c with
  | none => rfl
  | some cs => exact colNames_filterRows df _

theorem colNames_fillCol (df : DF) (c : String) (v : Val) :
    colNames (fillCol df c v) = colNames df := by
  unfold colNames fillCol
  simp only [List.map_map]
  apply List.map_congr_left
  intro p _
  simp only [Function.comp_apply]
  split <;> rfl

theorem mem_colNames_dropColumn {df : DF} {c x : String}
    (h : x ∈ colNames (dropColumn df c)) : x ∈ colNames df := by
  unfold colNames dropColumn at h
  unfold colNames
  simp only [List.mem_map] at h ⊢
  rcases h with ⟨p, hp, rfl⟩
  exact ⟨p, List.mem_of_mem_filter hp, rfl⟩

theorem notin_colNames_dropColumn (df : DF) (c : String) :
    c ∉ colNames (dropColumn df c) := by
  unfold colNames dropColumn
  simp only [List.mem_map]
  rintro ⟨p, hp, rfl⟩
  have := List.of_mem_filter hp
  simp at this

theorem cleanStep_names_subset (total : ℕ) (t : Option String) (st : DF) (c : String) :
    ∀ x ∈ colNames (cleanStep total t st c).1, x ∈ colNames st := by
  intro x hx
  unfold cleanStep at hx
  repeat' split at hx
  all_goals
    first
    | exact hx
    | (rw [colNames_dropnaSubset] at hx; exact hx)
    | (rw [colNames_fillCol] at hx; exact hx)
    | exact mem_colNames_dropColumn hx

theorem sacAux_notin (total : ℕ) (t : Option String) :
    ∀ (cs : List String) (st : DF) (c : String),
      c ∉ colNames st → c ∉ colNames (sacAux total t st cs).1 := by
  intro cs
  induction cs with
  | nil => intro st c h; exact h
  | cons c0 cs ih =>
    intro st c h
    rw [sacAux_cons]
    refine ih _ c ?_
    intro hmem
    exact h (cleanStep_names_subset total t st c0 c hmem)

theorem pctOf_zero (n : ℕ) : pctOf 0 n = 0 := by
  rw [pctOf_eq]
  simp

theorem cleanStep_dropCol (total : ℕ) (t : Option String) (st : DF) (c : String)
    (ht : targetHit t c = false)
    (hp : 50 ≤ pctOf (missCount st c) total) :
    (cleanStep total t st c).1 = dropColumn st c := by
  have hm : missCount st c ≠ 0 := by
    intro h0
    rw [h0, pctOf_zero] at hp
    linarith
  unfold cleanStep
  rw [if_neg hm, if_neg (by simp [ht]), if_neg (by linarith), if_neg (by linarith),
    if_pos hp]

/-- Claim C3 (corrected): a non-target column whose missing count *at the
moment it is evaluated*, divided by the row count the pass started with, is
at least 50% is dropped and absent from `auto_clean`'s output.  (The claim as
stated — every column whose missing percentage is at least 50% disappears —
fails: earlier row drops in the same pass change the evaluated count, see
`c3_counterexample`.) -/
theorem c3_dropped_column_absent (df : DF) (t : Option String) (k : ℕ) (c : String)
    (hk : (colNames df)[k]? = some c)
    (ht : targetHit t c = false)
    (hp : 50 ≤ (missCount (sacUpTo df t k).1 c : ℚ) / (nrows df : ℚ) * 100) :
    c ∉ colNames (standard_auto_cleaning df t).1 := by
  rw [← pctOf_eq] at hp
  have hklt : k < (colNames df).length := getElem?_some_lt hk
  have hcel : (colNames df)[k] = c := by
    rw [List.getElem?_eq_getElem hklt] at hk
    exact Option.some.inj hk
  have hsplit : colNames df = (colNames df).take k ++ c :: (colNames df).drop (k + 1) := by
    conv_lhs => rw [← List.take_append_drop k (colNames df)]
    rw [List.drop_eq_getElem_cons hklt, hcel]
  unfold standard_auto_cleaning
  rw [hsplit, sacAux_append]
  have hst : (sacAux (nrows df) t df ((colNames df).take k)).1 = (sacUpTo df t k).1 := rfl
  rw [hst, sacAux_cons]
  rw [cleanStep_dropCol (nrows df) t (sacUpTo df t k).1 c ht hp]
  exact sacAux_notin (nrows df) t _ _ c (notin_colNames_dropColumn _ c)

/-- Counterexample for C3 as stated: in `dfC3`, `B` is missing in 21 of 41
rows initially (51.2% ≥ 50), and even at the moment it is evaluated it is
missing in 20 of the 39 remaining rows (51.3% ≥ 50 of the *current* rows) —
yet `B` survives the pass with 20 missing values, because the code divides
the evaluated count 20 by the pass-start row count 41 (48.8% < 50). -/
theorem c3_counterexample :
    50 ≤ (missCount dfC3 "B" : ℚ) / (nrows dfC3 : ℚ) * 100 ∧
    50 ≤ (missCount (sacUpTo dfC3 none 1).1 "B" : ℚ) /
      (nrows (sacUpTo dfC3 none 1).1 : ℚ) * 100 ∧
    targetHit none "B" = false ∧
    "B" ∈ colNames (standard_auto_cleaning dfC3 none).1 ∧
    missCount (standard_auto_cleaning dfC3 none).1 "B" = 20 := by
  refine ⟨?_, ?_, rfl, by decide, by rfl⟩
  · rw [show missCount dfC3 "B" = 21 from rfl, show nrows dfC3 = 41 from rfl]
    norm_num
  · rw [show missCount (sacUpTo dfC3 none 1).1 "B" = 20 from rfl,
      show nrows (sacUpTo dfC3 none 1).1 = 39 from rfl]
    norm_num

/-- Witness for C3's amended theorem: a column `Z` with exactly 50% missing
is dropped. -/
theorem c3_witness :
    (colNames dfC3w)[0]? = some "Z" ∧
    targetHit none "Z" = false ∧
    50 ≤ (missCount (sacUpTo dfC3w none 0).1 "Z" : ℚ) / (nrows dfC3w : ℚ) * 100 ∧
    "Z" ∉ colNames (standard_auto_cleaning dfC3w none).1 := by
  have hp : 50 ≤ (missCount (sacUpTo dfC3w none 0).1 "Z" : ℚ) / (nrows dfC3w : ℚ) * 100 := by
    rw [show missCount (sacUpTo dfC3w none 0).1 "Z" = 2 from rfl,
      show nrows dfC3w = 4 from rfl]
    norm_num
  exact ⟨by rfl, rfl, hp, c3_dropped_column_absent dfC3w none 0 "Z" (by rfl) rfl hp⟩

/-! ## Claim C4 -/

theorem missZero_filterRows (st : DF) (ks : List Bool) (T : String)
    (h0 : missCount st T = 0) : missCount (filterRows st ks) T = 0 := by
  unfold missCount getColD at h0 ⊢
  rw [getCol_filterRows]
  cases hc : getCol st T with
  | none => simp
  | some cs =>
    rw [hc] at h0
    simp only [Option.map_some', Option.getD_some] at h0 ⊢
    have := countP_maskFilter_le isna ks cs
    omega

theorem missZero_dropnaSubset (st : DF) (c' T : String)
    (h0 : missCount st T = 0) : missCount (dropnaSubset st c') T = 0 := by
  unfold dropnaSubset
  cases getCol st c' with
  | none => exact h0
  | some cs => exact missZero_filterRows st _ T h0

theorem cleanStep_preserves_missZero (total : ℕ) (t : Option String) (st : DF)
    (c' T : String) (h0 : missCount st T = 0) :
    missCount (cleanStep total t st c').1 T = 0 := by
  by_cases hm : missCount st c' = 0
  · unfold cleanStep
    rw [if_pos hm]
    exact h0
  · have hne : T ≠ c' := fun h => hm (h ▸ h0)
    have hfill : ∀ v : Val, missCount (fillCol st c' v) T = 0 := by
      intro v
      unfold missCount getColD
      rw [getCol_fillCol_ne st c' T v hne]
      exact h0
    have hdropc : missCount (dropColumn st c') T = 0 := by
      unfold missCount getColD
      rw [getCol_dropColumn_ne st c' T hne]
      exact h0
    unfold cleanStep
    rw [if_neg hm]
    repeat' split
    all_goals
      first
      | exact h0
      | exact missZero_dropnaSubset st c' T h0
      | exact hfill _
      | exact hdropc

theorem dropna_self_zero (st : DF) (T : String) (cs0 : List Val)
    (hc : getCol st T = some cs0) : missCount (dropnaSubset st T) T = 0 := by
  unfold dropnaSubset
  rw [hc]
  unfold missCount getColD
  rw [getCol_filterRows, hc]
  simp only [Option.map_some', Option.getD_some]
  exact countP_maskFilter_self _ (by intro v hv; simp [hv]) cs0

theorem missCount_ne_zero_getCol {st : DF} {T : String}
    (h : missCount st T ≠ 0) : ∃ cs0, getCol st T = some cs0 := by
  unfold missCount getColD at h
  cases hc : getCol st T with
  | none => rw [hc] at h; simp at h
  | some cs0 => exact ⟨cs0, rfl⟩

theorem c4_aux (total : ℕ) (T : String) (hT : ¬ T = "") :
    ∀ (cs : List String) (st : DF),
      (missCount st T = 0 ∨ T ∈ cs) →
      missCount (sacAux total (some T) st cs).1 T = 0 := by
  intro cs
  induction cs with
  | nil =>
    intro st h
    rcases h with h | h
    · exact h
    · simp at h
  | cons c0 cs ih =>
    intro st h
    rw [sacAux_cons]
    rcases h with h0 | hmem
    · exact ih _ (Or.inl (cleanStep_preserves_missZero total (some T) st c0 T h0))
    · rcases List.mem_cons.mp hmem with rfl | hmem'
      · by_cases h0 : missCount st T = 0
        · exact ih _ (Or.inl (cleanStep_preserves_missZero total (some T) st T T h0))
        · rcases missCount_ne_zero_getCol h0 with ⟨cs0, hc⟩
          have htg : targetHit (some T) T = true := by
            unfold targetHit
            simp [hT]
          have hstep : (cleanStep total (some T) st T).1 = dropnaSubset st T := by
            unfold cleanStep
            rw [if_neg h0, if_pos htg]
          rw [hstep]
          exact ih _ (Or.inl (dropna_self_zero st T cs0 hc))
      · exact ih _ (Or.inr hmem')

/-- Claim C4 (corrected): for every dataset and every *non-empty-named*
target column `T`, the result of `auto_clean(df, target_column=T)` has zero
missing values in `T`, whatever its original missing percentage — rows with a
missing target are dropped when `T` is reached and no later action can
re-introduce a missing value.  (The claim as stated fails only for the
pathological column named `""`: Python's `if target_col and ...` truthiness
check disables target handling for an empty-string name, see
`c4_counterexample`.) -/
theorem c4_target_no_missing (df : DF) (T : String) (hT : ¬ T = "") :
    missCount (standard_auto_cleaning df (some T)).1 T = 0 := by
  unfold standard_auto_cleaning
  apply c4_aux (nrows df) T hT
  by_cases h0 : missCount df T = 0
  · exact Or.inl h0
  · rcases missCount_ne_zero_getCol h0 with ⟨cs0, hc⟩
    exact Or.inr (getCol_some_mem hc)

/-- Counterexample for C4 as stated: the dataset `dfC4` contains a column
named `""` with 3 of 10 values missing; designating it as the target column
leaves all 3 missing values in place (the truthiness guard skips the target
branch, and 30% falls into the left-unchanged band). -/
theorem c4_counterexample :
    "" ∈ colNames dfC4 ∧
    missCount (standard_auto_cleaning dfC4 (some "")).1 "" = 3 := by
  exact ⟨by decide, by rfl⟩

/-- Witness for C4's amended theorem: target `tg` with 50% missing values is
fully cleared. -/
theorem c4_witness :
    ¬ "tg" = "" ∧ missCount (standard_auto_cleaning dfC4w (some "tg")).1 "tg" = 0 :=
  ⟨by decide, c4_target_no_missing dfC4w "tg" (by decide)⟩

/-! ## Claim C9 -/

theorem getRef_setRef_ne (st : Store) (r : ℕ) (d : DF) (r' : ℕ) (h : r' ≠ r) :
    getRef (setRef st r d) r' = getRef st r' := by
  simp [getRef, setRef, h]

theorem getRef_setRef_self (st : Store) (r : ℕ) (d : DF) :
    getRef (setRef st r d) r = some d := by
  simp [getRef, setRef]

theorem getRef_allocS_old (st : Store) (d : DF) (r' : ℕ) (h : r' ≠ st.next) :
    getRef (allocS st d).1 r' = getRef st r' := by
  simp [getRef, allocS, h]

theorem getRef_applyEdits_ne (r r' : ℕ) (h : r' ≠ r) :
    ∀ (es : List (DF → DF)) (st : Store),
      getRef (applyEdits st r es) r' = getRef st r' := by
  intro es
  induction es with
  | nil => intro st; rfl
  | cons e es ih =>
    intro st
    simp only [applyEdits]
    rw [ih]
    exact getRef_setRef_ne st r _ r' h

theorem applyEdits_get_self (r : ℕ) :
    ∀ (es : List (DF → DF)) (st : Store) (d0 : DF), getRef st r = some d0 →
      getRef (applyEdits st r es) r = some (es.foldl (fun d e => e d) d0) := by
  intro es
  induction es with
  | nil => intro st d0 h; exact h
  | cons e es ih =>
    intro st d0 h
    simp only [applyEdits, List.foldl]
    have hd : getRefD st r = d0 := by simp [getRefD, getRef] at h ⊢; simp [h]
    rw [hd]
    exact ih _ (e d0) (getRef_setRef_self st r (e d0))

theorem copyThen_frame (mk : DF → List (DF → DF)) (st : Store) (r r' : ℕ)
    (h : r' < st.next) :
    getRef (copyThen mk st r).1 r' = getRef st r' := by
  unfold copyThen
  rw [getRef_applyEdits_ne _ r' (by
    show r' ≠ (allocS st (getRefD st r)).2
    simp [allocS]
    omega)]
  exact getRef_allocS_old st _ r' (by omega)

theorem copyThen_ref (mk : DF → List (DF → DF)) (st : Store) (r : ℕ) :
    (copyThen mk st r).2 = st.next := rfl

theorem pureAlloc_frame (f : DF → DF) (st : Store) (r r' : ℕ) (h : r' < st.next) :
    getRef (pureAlloc f st r).1 r' = getRef st r' :=
  getRef_allocS_old st _ r' (by omega)

theorem exceptAlloc_frame (f : DF → Except String DF) (st : Store) (r r' : ℕ)
    (h : r' < st.next) :
    getRef (exceptAlloc f st r).1 r' = getRef st r' := by
  unfold exceptAlloc
  cases f (getRefD st r) with
  | ok d => exact getRef_allocS_old st d r' (by omega)
  | error e => rfl

theorem exceptAlloc_ref (f : DF → Except String DF) (st : Store) (r r1 : ℕ)
    (h : (exceptAlloc f st r).2 = some r1) : r1 = st.next := by
  unfold exceptAlloc at h
  cases hf : f (getRefD st r) with
  | ok d =>
    simp only [hf] at h
    simp [allocS] at h
    omega
  | error e => simp [hf] at h

theorem sacAux_fst_foldl (total : ℕ) (t : Option String) :
    ∀ (cs : List String) (st : DF),
      (sacAux total t st cs).1 = cs.foldl (fun d c => (cleanStep total t d c).1) st := by
  intro cs
  induction cs with
  | nil => intro st; rfl
  | cons c cs ih =>
    intro st
    rw [sacAux_cons, List.foldl_cons]
    exact ih _

/-- Claim C9 (confirmed): every engine operation — `standard_auto_cleaning`,
the manual drop/fill missing-value operations, `run_auto_outlier_removal`,
and the manual outlier removal/capping operations — allocates a copy
(`df.copy()`) or builds its result from reads, performs its in-place edits
only on the fresh object, and returns a new reference: every reference that
existed before the call still holds exactly the same frame afterwards, and
the returned reference (for the operations that can raise: whenever the call
completes and returns one) is distinct from all of them.  The final conjunct ties
the store semantics to the pure function: the frame behind the returned
reference of `standard_auto_cleaning_st` is `standard_auto_cleaning` of the
input frame. -/
theorem c9_no_caller_mutation (st : Store) (r r' : ℕ) (t : Option String)
    (cols : List String) (m : FillMethod) (v : Val) (z ql qh pl ph : ℚ)
    (h : r' < st.next) :
    (getRef (standard_auto_cleaning_st st r t).1 r' = getRef st r' ∧
      (standard_auto_cleaning_st st r t).2 ≠ r') ∧
    (getRef (drop_rows_na_st st r cols).1 r' = getRef st r' ∧
      (drop_rows_na_st st r cols).2 ≠ r') ∧
    (getRef (drop_cols_na_st st r cols).1 r' = getRef st r' ∧
      (drop_cols_na_st st r cols).2 ≠ r') ∧
    (getRef (drop_selected_cols_st st r cols).1 r' = getRef st r' ∧
      (drop_selected_cols_st st r cols).2 ≠ r') ∧
    (getRef (fill_na_st st r cols m v).1 r' = getRef st r' ∧
      (fill_na_st st r cols m v).2 ≠ r') ∧
    (getRef (remove_duplicates_st st r).1 r' = getRef st r' ∧
      (remove_duplicates_st st r).2 ≠ r') ∧
    (getRef (run_auto_outlier_removal_st st r z).1 r' = getRef st r' ∧
      (run_auto_outlier_removal_st st r z).2 ≠ r') ∧
    (getRef (remove_outliers_iqr_st st r cols ql qh).1 r' = getRef st r' ∧
      ∀ r1, (remove_outliers_iqr_st st r cols ql qh).2 = some r1 → r1 ≠ r') ∧
    (getRef (remove_outliers_zscore_st st r cols z).1 r' = getRef st r' ∧
      ∀ r1, (remove_outliers_zscore_st st r cols z).2 = some r1 → r1 ≠ r') ∧
    (getRef (cap_outliers_st st r cols ql qh).1 r' = getRef st r' ∧
      ∀ r1, (cap_outliers_st st r cols ql qh).2 = some r1 → r1 ≠ r') ∧
    (getRef (remove_outliers_percentile_st st r cols pl ph).1 r' = getRef st r' ∧
      ∀ r1, (remove_outliers_percentile_st st r cols pl ph).2 = some r1 → r1 ≠ r') ∧
    (∀ d, getRef st r = some d →
      getRef (standard_auto_cleaning_st st r t).1 (standard_auto_cleaning_st st r t).2 =
        some (standard_auto_cleaning d t).1) := by
  have hne : st.next ≠ r' := by omega
  refine ⟨⟨copyThen_frame _ st r r' h, hne⟩,
    ⟨copyThen_frame _ st r r' h, hne⟩,
    ⟨copyThen_frame _ st r r' h, hne⟩,
    ⟨pureAlloc_frame _ st r r' h, hne⟩,
    ⟨copyThen_frame _ st r r' h, hne⟩,
    ⟨pureAlloc_frame _ st r r' h, hne⟩,
    ⟨pureAlloc_frame _ st r r' h, hne⟩,
    ⟨exceptAlloc_frame _ st r r' h, ?_⟩,
    ⟨exceptAlloc_frame _ st r r' h, ?_⟩,
    ⟨exceptAlloc_frame _ st r r' h, ?_⟩,
    ⟨exceptAlloc_frame _ st r r' h, ?_⟩, ?_⟩
  · intro r1 h1
    rw [exceptAlloc_ref _ st r r1 h1]
    exact hne
  · intro r1 h1
    rw [exceptAlloc_ref _ st r r1 h1]
    exact hne
  · intro r1 h1
    rw [exceptAlloc_ref _ st r r1 h1]
    exact hne
  · intro r1 h1
    rw [exceptAlloc_ref _ st r r1 h1]
    exact hne
  · intro d hd
    show getRef (copyThen _ st r).1 (copyThen _ st r).2 = _
    unfold copyThen
    have hd' : getRefD st r = d := by
      unfold getRefD
      rw [show st.mem r = some d from hd]
      rfl
    have halloc : getRef (allocS st (getRefD st r)).1 (allocS st (getRefD st r)).2 =
        some d := by
      simp [getRef, allocS, hd']
    rw [applyEdits_get_self _ _ _ d halloc]
    rw [hd']
    rw [List.foldl_map]
    rw [show (standard_auto_cleaning d t).1 =
      (colNames d).foldl (fun cur c => (cleanStep (nrows d) t cur c).1) d from
      sacAux_fst_foldl (nrows d) t (colNames d) d]

/-- Witness for C9 at a concrete one-frame store. -/
theorem c9_witness :
    (0 : ℕ) < stC9w.next ∧
    getRef (standard_auto_cleaning_st stC9w 0 none).1 0 = getRef stC9w 0 ∧
    (standard_auto_cleaning_st stC9w 0 none).2 ≠ 0 :=
  ⟨by decide,
   (c9_no_caller_mutation stC9w 0 0 none [] FillMethod.mode Val.na 3 (mkRat 1 4)
      (mkRat 3 4) 0 100 (by decide)).1.1,
   (c9_no_caller_mutation stC9w 0 0 none [] FillMethod.mode Val.na 3 (mkRat 1 4)
      (mkRat 3 4) 0 100 (by decide)).1.2⟩

/-! ## Claim C5 -/

theorem maskFilter_mem {ks : List Bool} :
    ∀ {xs : List Val} {x : Val}, x ∈ maskFilter ks xs → x ∈ xs := by
  induction ks with
  | nil => intro xs x h; simp [maskFilter] at h
  | cons k ks ih =>
    intro xs x h
    cases xs with
    | nil => cases k <;> simp [maskFilter] at h
    | cons y ys =>
      cases k with
      | true =>
        simp only [maskFilter, List.mem_cons] at h
        rcases h with rfl | h
        · simp
        · exact List.mem_cons_of_mem _ (ih h)
      | false =>
        simp only [maskFilter] at h
        exact List.mem_cons_of_mem _ (ih h)

theorem maskFilterN_length_le : ∀ (ks : List Bool) (xs : List Nat),
    (maskFilterN ks xs).length ≤ xs.length := by
  intro ks
  induction ks with
  | nil => intro xs; simp [maskFilterN]
  | cons k ks ih =>
    intro xs
    cases xs with
    | nil => cases k <;> simp [maskFilterN]
    | cons x xs =>
      cases k with
      | true => simpa [maskFilterN] using ih xs
      | false =>
        simp only [maskFilterN]
        exact Nat.le_trans (ih xs) (Nat.le_succ _)

theorem maskFilter_align : ∀ (ks : List Bool) (cells : List Val) (idx : List Nat),
    cells.length = idx.length →
    (maskFilter ks cells).length = (maskFilterN ks idx).length := by
  intro ks
  induction ks with
  | nil =>
    intro cells idx h
    cases cells <;> cases idx <;> simp_all [maskFilter, maskFilterN]
  | cons k ks ih =>
    intro cells idx h
    cases cells with
    | nil =>
      cases idx with
      | nil => cases k <;> rfl
      | cons i is => simp at h
    | cons v vs =>
      cases idx with
      | nil => simp at h
      | cons i is =>
        have h' : vs.length = is.length := by simpa using h
        cases k with
        | true => simpa [maskFilter, maskFilterN] using ih vs is h'
        | false => simpa [maskFilter, maskFilterN] using ih vs is h'

theorem maskFilterN_dropna_lt :
    ∀ (cs0 : List Val) (idx : List Nat), cs0.length = idx.length →
      cs0.countP isna ≠ 0 →
      (maskFilterN (cs0.map (fun v => !isna v)) idx).length < idx.length := by
  intro cs0
  induction cs0 with
  | nil => intro idx h hc; simp at hc
  | cons v vs ih =>
    intro idx h hc
    cases idx with
    | nil => simp at h
    | cons i is =>
      have h' : vs.length = is.length := by simpa using h
      cases hv : isna v with
      | true =>
        simp only [List.map_cons, hv, Bool.not_true, maskFilterN]
        exact Nat.lt_succ_of_le (maskFilterN_length_le _ is)
      | false =>
        have hc' : vs.countP isna ≠ 0 := by
          simp only [List.countP_cons, hv] at hc
          simpa using hc
        simp only [List.map_cons, hv, Bool.not_false, maskFilterN, List.length_cons]
        exact Nat.succ_lt_succ (ih is h' hc')

theorem countP_fill_zero {v : Val} (hv : isna v = false) :
    ∀ cells : List Val,
      (cells.map (fun x => if isna x then v else x)).countP isna = 0 := by
  intro cells
  induction cells with
  | nil => rfl
  | cons x xs ih =>
    cases hx : isna x with
    | true => simp [List.countP_cons, hx, hv, ih]
    | false => simp [List.countP_cons, hx, ih]

theorem find?_fillCol_self_aux (c : String) (v : Val) :
    ∀ ps : List (String × Dtype × List Val),
      (Option.map (·.2.2)
        ((ps.map (fun p =>
          if p.1 == c then (p.1, p.2.1, p.2.2.map (fun x => if isna x then v else x))
          else p)).find? (fun p => p.1 == c))) =
      (Option.map (·.2.2) (ps.find? (fun p => p.1 == c))).map
        (List.map (fun x => if isna x then v else x)) := by
  intro ps
  induction ps with
  | nil => rfl
  | cons p ps ih =>
    obtain ⟨n, d, cs⟩ := p
    by_cases h : n == c
    · simp [List.find?, h]
    · simpa [List.find?, h] using ih

theorem getCol_fillCol_self (df : DF) (c : String) (v : Val) :
    getCol (fillCol df c v) c =
      (getCol df c).map (List.map (fun x => if isna x then v else x)) := by
  unfold getCol fillCol
  exact find?_fillCol_self_aux c v df.cols

theorem getCol_dropColumn_self (df : DF) (c : String) :
    getCol (dropColumn df c) c = none := by
  unfold getCol dropColumn
  simp only
  induction df.cols with
  | nil => rfl
  | cons p ps ih =>
    by_cases h : p.1 == c
    · simpa [List.filter, h] using ih
    · simpa [List.filter, List.find?, h] using ih

theorem foldl_choice_mem (g : Val → Val → Val) (hg : ∀ b x, g b x = b ∨ g b x = x) :
    ∀ (l : List Val) (a : Val), l.foldl g a ∈ a :: l := by
  intro l
  induction l with
  | nil => intro a; simp
  | cons x l ih =>
    intro a
    show List.foldl g (g a x) l ∈ a :: x :: l
    rcases List.mem_cons.mp (ih (g a x)) with h1 | h1
    · rcases hg a x with hgx | hgx
      · have h2 : List.foldl g (g a x) l = a := h1.trans hgx
        rw [h2]; simp
      · have h2 : List.foldl g (g a x) l = x := h1.trans hgx
        rw [h2]; simp
    · exact List.mem_cons_of_mem _ (List.mem_cons_of_mem _ h1)

theorem mode_mem {cs : List Val} {m : Val} (h : mode cs = some m) : m ∈ nonNA cs := by
  unfold mode at h
  cases hn : nonNA cs with
  | nil => rw [hn] at h; cases h
  | cons y ys =>
    rw [hn] at h
    have hm := Option.some.inj h
    have hmem := foldl_choice_mem
      (fun b x =>
        if (y :: ys).count b < (y :: ys).count x
            ∨ ((y :: ys).count b = (y :: ys).count x ∧ valLt x b) then x
        else b)
      (by intro b x; dsimp only; split <;> simp) (y :: ys) y
    rw [hm] at hmem
    rcases List.mem_cons.mp hmem with h1 | h1
    · rw [h1]; simp
    · exact h1

theorem nonNA_isna_false {cs : List Val} {m : Val} (h : m ∈ nonNA cs) :
    isna m = false := by
  unfold nonNA at h
  have := List.of_mem_filter h
  simpa using this

theorem nonNA_sub {cs : List Val} {m : Val} (h : m ∈ nonNA cs) : m ∈ cs :=
  List.mem_of_mem_filter h

theorem getCol_exists_mem {df : DF} {c : String} {cs0 : List Val}
    (h : getCol df c = some cs0) :
    ∃ d0, (c, d0, cs0) ∈ df.cols ∧ dtypeOf df c = some d0 := by
  unfold getCol at h
  cases hf : df.cols.find? (fun p => p.1 == c) with
  | none => rw [hf] at h; cases h
  | some p0 =>
    rw [hf] at h
    have hp0 : p0.2.2 = cs0 := by simpa using h
    have hmem := List.mem_of_find?_eq_some hf
    have hname : p0.1 = c := by simpa using List.find?_some hf
    refine ⟨p0.2.1, ?_, ?_⟩
    · rw [← hname, ← hp0]
      exact hmem
    · unfold dtypeOf
      rw [hf]
      rfl

theorem insertQ_length (q : ℚ) : ∀ xs : List ℚ, (insertQ q xs).length = xs.length + 1 := by
  intro xs
  induction xs with
  | nil => rfl
  | cons x xs ih =>
    unfold insertQ
    split
    · simp
    · simpa using ih

theorem sortQ_length (xs : List ℚ) : (sortQ xs).length = xs.length := by
  unfold sortQ
  induction xs with
  | nil => rfl
  | cons x xs ih => simp [List.foldr, insertQ_length, ih]

theorem median_ne_none {xs : List ℚ} (h : xs ≠ []) : median xs ≠ none := by
  unfold median
  have hl : (sortQ xs).length ≠ 0 := by
    rw [sortQ_length]
    exact fun h0 => h (List.length_eq_zero.mp h0)
  simp only [hl, if_false]
  split <;> simp

theorem nonNA_eq_nil_countP {cs : List Val} (h : nonNA cs = []) :
    cs.countP isna = cs.length := by
  rw [List.countP_eq_length]
  intro v hv
  unfold nonNA at h
  have := List.filter_eq_nil.mp h v hv
  simpa using this

theorem nunique_nonNA_ne_nil {cs : List Val} (h : 20 ≤ nunique cs) : nonNA cs ≠ [] := by
  intro hn
  unfold nunique at h
  rw [hn] at h
  simp at h

theorem nums_ne_nil_of_typed {cells : List Val}
    (htyped : ∀ v ∈ cells, isNumOrNa v = true)
    (hne : nonNA cells ≠ []) : nums cells ≠ [] := by
  cases hnn : nonNA cells with
  | nil => exact absurd hnn hne
  | cons v vs =>
    have hv : v ∈ nonNA cells := by rw [hnn]; simp
    have hvc : v ∈ cells := nonNA_sub hv
    have hna : isna v = false := nonNA_isna_false hv
    have := htyped v hvc
    cases v with
    | na => simp [isna] at hna
    | str s => simp [isNumOrNa] at this
    | num q =>
      intro hnil
      have : q ∈ nums cells := by
        unfold nums
        exact List.mem_filterMap.mpr ⟨Val.num q, hvc, rfl⟩
      rw [hnil] at this
      simp at this

theorem colNames_dropColumn_eq (df : DF) (c : String) :
    colNames (dropColumn df c) = (colNames df).filter (fun n => !(n == c)) := by
  unfold colNames dropColumn
  simp only
  induction df.cols with
  | nil => rfl
  | cons p ps ih =>
    by_cases h : p.1 == c
    · simpa [List.filter, h] using ih
    · simpa [List.filter, h] using ih

theorem WF_filterRows {df : DF} (hwf : WFdf df) (ks : List Bool) :
    WFdf (filterRows df ks) := by
  refine ⟨?_, ?_, ?_⟩
  · intro p hp
    simp only [filterRows, List.mem_map] at hp
    rcases hp with ⟨q, hq, rfl⟩
    exact maskFilter_align ks q.2.2 df.idx (hwf.aligned q hq)
  · rw [colNames_filterRows]
    exact hwf.nodupNames
  · intro p hp hd v hv
    simp only [filterRows, List.mem_map] at hp
    rcases hp with ⟨q, hq, rfl⟩
    exact hwf.typed q hq hd v (maskFilter_mem hv)

theorem WF_dropnaSubset {df : DF} (hwf : WFdf df) (c : String) :
    WFdf (dropnaSubset df c) := by
  unfold dropnaSubset
  cases getCol df c with
  | none => exact hwf
  | some cs => exact WF_filterRows hwf _

theorem WF_dropColumn {df : DF} (hwf : WFdf df) (c : String) :
    WFdf (dropColumn df c) := by
  refine ⟨?_, ?_, ?_⟩
  · intro p hp
    exact hwf.aligned p (List.mem_of_mem_filter hp)
  · rw [colNames_dropColumn_eq]
    exact hwf.nodupNames.filter _
  · intro p hp
    exact hwf.typed p (List.mem_of_mem_filter hp)

theorem find?_name_of_mem_nodup :
    ∀ (ps : List (String × Dtype × List Val)) (p : String × Dtype × List Val),
      (ps.map (·.1)).Nodup → p ∈ ps → ps.find? (fun q => q.1 == p.1) = some p := by
  intro ps
  induction ps with
  | nil => intro p _ hp; simp at hp
  | cons q ps ih =>
    intro p hnd hp
    have hnd' : (ps.map (·.1)).Nodup := (List.nodup_cons.mp hnd).2
    have hq1 : q.1 ∉ ps.map (·.1) := (List.nodup_cons.mp hnd).1
    rcases List.mem_cons.mp hp with rfl | hp'
    · simp [List.find?]
    · have hne : ¬ (q.1 == p.1) := by
        intro hh
        have : q.1 = p.1 := by simpa using hh
        exact hq1 (this ▸ List.mem_map.mpr ⟨p, hp', rfl⟩)
      simp only [List.find?, hne]
      exact ih p hnd' hp'

theorem getCol_of_mem_nodup {df : DF} (hnd : (colNames df).Nodup)
    {p : String × Dtype × List Val} (hp : p ∈ df.cols) :
    getCol df p.1 = some p.2.2 := by
  unfold getCol
  rw [find?_name_of_mem_nodup df.cols p hnd hp]
  rfl

theorem WF_fillCol {df : DF} (hwf : WFdf df) (c : String) (v : Val)
    (hv : dtypeD df c = Dtype.num → isNumOrNa v = true) :
    WFdf (fillCol df c v) := by
  refine ⟨?_, ?_, ?_⟩
  · intro p hp
    simp only [fillCol, List.mem_map] at hp
    rcases hp with ⟨q, hq, rfl⟩
    have := hwf.aligned q hq
    split <;> simpa using this
  · rw [colNames_fillCol]
    exact hwf.nodupNames
  · intro p hp hd w hw
    simp only [fillCol, List.mem_map] at hp
    rcases hp with ⟨q, hq, hpq⟩
    by_cases hqc : q.1 == c
    · rw [if_pos hqc] at hpq
      subst hpq
      simp only at hd hw
      rcases List.mem_map.mp hw with ⟨x, hx, rfl⟩
      by_cases hx0 : isna x = true
      · rw [if_pos hx0]
        apply hv
        have hq1 : q.1 = c := by simpa using hqc
        have hgc : getCol df c = some q.2.2 := by
          rw [← hq1]
          exact getCol_of_mem_nodup hwf.nodupNames hq
        unfold dtypeD dtypeOf
        unfold getCol at hgc
        cases hf : df.cols.find? (fun p => p.1 == c) with
        | none => rw [hf] at hgc; cases hgc
        | some p0 =>
          rw [hf] at hgc
          have hp0 : p0 ∈ df.cols := List.mem_of_find?_eq_some hf
          have hname : p0.1 = c := by simpa using List.find?_some hf
          have : p0 = q := by
            have h1 := find?_name_of_mem_nodup df.cols q hwf.nodupNames hq
            rw [hq1] at h1
            rw [h1] at hf
            exact (Option.some.inj hf).symm
          simp only [Option.map_some', Option.getD_some]
          rw [this, hd]
      · rw [if_neg hx0]
        exact hwf.typed q hq hd x hx
    · rw [if_neg hqc] at hpq
      subst hpq
      exact hwf.typed q hq hd w hw

theorem mode_fill_typed {st : DF} (hwf : WFdf st) (c : String) {m : Val}
    (hmode : mode (getColD st c) = some m) :
    dtypeD st c = Dtype.num → isNumOrNa m = true := by
  intro hdt
  have hmem := mode_mem hmode
  have hcell := nonNA_sub hmem
  cases hcs : getCol st c with
  | none =>
    rw [show getColD st c = [] from by simp [getColD, hcs]] at hcell
    simp at hcell
  | some cs0 =>
    have hgd : getColD st c = cs0 := by simp [getColD, hcs]
    rw [hgd] at hcell
    rcases getCol_exists_mem hcs with ⟨d0, hd0mem, hd0⟩
    have hdnum : d0 = Dtype.num := by
      unfold dtypeD at hdt
      rw [hd0] at hdt
      simpa using hdt
    exact hwf.typed _ hd0mem hdnum _ hcell

theorem WF_cleanStep {st : DF} (hwf : WFdf st) (total : ℕ) (t : Option String)
    (c : String) : WFdf (cleanStep total t st c).1 := by
  unfold cleanStep
  repeat' split
  all_goals
    first
    | exact hwf
    | exact WF_dropnaSubset hwf c
    | exact WF_dropColumn hwf c
    | exact WF_fillCol hwf c _ (fun _ => rfl)
    | exact WF_fillCol hwf c _ (mode_fill_typed hwf c (by assumption))

theorem nrows_dropnaSubset_le (df : DF) (c : String) :
    nrows (dropnaSubset df c) ≤ nrows df := by
  unfold dropnaSubset
  cases getCol df c with
  | none => exact Nat.le_refl _
  | some cs => exact maskFilterN_length_le _ df.idx

theorem nrows_cleanStep_le (total : ℕ) (t : Option String) (st : DF) (c : String) :
    nrows (cleanStep total t st c).1 ≤ nrows st := by
  unfold cleanStep
  repeat' split
  all_goals
    first
    | exact Nat.le_refl _
    | exact nrows_dropnaSubset_le st c

theorem nrows_sacAux_le (total : ℕ) (t : Option String) :
    ∀ (cs : List String) (st : DF), nrows (sacAux total t st cs).1 ≤ nrows st := by
  intro cs
  induction cs with
  | nil => intro st; exact Nat.le_refl _
  | cons c cs ih =>
    intro st
    exact Nat.le_trans (ih (cleanStep total t st c).1) (nrows_cleanStep_le total t st c)

theorem sacAux_preserved_head (total : ℕ) (t : Option String) (st : DF) (c : String)
    (cs : List String)
    (h : nrows (sacAux total t st (c :: cs)).1 = nrows st) :
    nrows (cleanStep total t st c).1 = nrows st ∧
    nrows (sacAux total t (cleanStep total t st c).1 cs).1 =
      nrows (cleanStep total t st c).1 := by
  have h' : nrows (sacAux total t (cleanStep total t st c).1 cs).1 = nrows st := h
  have h1 := nrows_sacAux_le total t cs (cleanStep total t st c).1
  have h2 := nrows_cleanStep_le total t st c
  omega

theorem dropna_strict_lt {st : DF} (hwf : WFdf st) {c : String} {cs0 : List Val}
    (hcs0 : getCol st c = some cs0) (hm : missCount st c ≠ 0) :
    nrows (dropnaSubset st c) < nrows st := by
  rcases getCol_exists_mem hcs0 with ⟨d0, hd0mem, _⟩
  have hlen : cs0.length = st.idx.length := hwf.aligned _ hd0mem
  have hcnt : cs0.countP isna ≠ 0 := by
    unfold missCount getColD at hm
    rw [hcs0] at hm
    simpa using hm
  unfold dropnaSubset
  rw [hcs0]
  exact maskFilterN_dropna_lt cs0 st.idx hlen hcnt

theorem pctOf_full (total : ℕ) (h : total ≠ 0) : pctOf total total = 100 := by
  rw [pctOf_eq]
  have : ((total : ℚ)) ≠ 0 := by exact_mod_cast h
  rw [div_self this]
  norm_num

/-- The heart of the conditional-idempotence argument: a `cleanStep` that did
not change the row count either skipped, filled, dropped the column, or
deferred it — in each case the processed column ends `GoodCol`, and every
other column's cells are untouched. -/
theorem cleanStep_no_drop (total : ℕ) (t : Option String) (st : DF) (c : String)
    (hwf : WFdf st) (htot : nrows st = total)
    (hpres : nrows (cleanStep total t st c).1 = nrows st) :
    (∀ c'', c'' ≠ c → getCol (cleanStep total t st c).1 c'' = getCol st c'') ∧
    GoodCol total t (cleanStep total t st c).1 c := by
  by_cases hm : missCount st c = 0
  · have hstep : cleanStep total t st c = (st, none) := by
      unfold cleanStep
      rw [if_pos hm]
    rw [hstep]
    exact ⟨fun _ _ => rfl, Or.inl hm⟩
  · obtain ⟨cs0, hcs0⟩ := missCount_ne_zero_getCol hm
    have hdec := dropna_strict_lt hwf hcs0 hm
    have htg' : targetHit t c = false := by
      cases hb : targetHit t c
      · rfl
      · exfalso
        have hstep : (cleanStep total t st c).1 = dropnaSubset st c := by
          unfold cleanStep
          rw [if_neg hm, if_pos hb]
        rw [hstep] at hpres
        omega
    by_cases h5 : pctOf (missCount st c) total < 5
    · exfalso
      have hstep : (cleanStep total t st c).1 = dropnaSubset st c := by
        unfold cleanStep
        rw [if_neg hm, if_neg (by rw [htg']; simp), if_pos h5]
      rw [hstep] at hpres
      omega
    · by_cases h20 : pctOf (missCount st c) total < 20
      · by_cases hnum : dtypeD st c = Dtype.num ∧
            is_categorical (dtypeD st c) (getColD st c) = false
        · -- median path: the median exists, the column is filled, no NaN remains
          have hnu : 20 ≤ nunique (getColD st c) := by
            have h2 := hnum.2
            unfold is_categorical at h2
            rw [hnum.1] at h2
            simp only [Bool.or_eq_false_iff, decide_eq_false_iff_not] at h2
            omega
          have htyped : ∀ v ∈ getColD st c, isNumOrNa v = true := by
            intro v hv
            rcases getCol_exists_mem hcs0 with ⟨d0, hd0mem, hd0⟩
            have hdnum : d0 = Dtype.num := by
              have := hnum.1
              unfold dtypeD at this
              rw [hd0] at this
              simpa using this
            have hgd : getColD st c = cs0 := by simp [getColD, hcs0]
            rw [hgd] at hv
            exact hwf.typed _ hd0mem hdnum v hv
          have hne := nums_ne_nil_of_typed htyped (nunique_nonNA_ne_nil hnu)
          cases hmed : median (nums (getColD st c)) with
          | none => exact absurd hmed (median_ne_none hne)
          | some v =>
            have hstep : (cleanStep total t st c).1 = fillCol st c (.num v) := by
              unfold cleanStep
              rw [if_neg hm, if_neg (by rw [htg']; simp), if_neg h5, if_pos h20,
                if_pos hnum, hmed]
            rw [hstep]
            refine ⟨fun c'' hne' => getCol_fillCol_ne st c c'' _ hne', Or.inl ?_⟩
            unfold missCount getColD
            rw [getCol_fillCol_self, hcs0]
            simp only [Option.map_some', Option.getD_some]
            exact countP_fill_zero (show isna (Val.num v) = false from rfl) cs0
        · -- mode path
          cases hmode : mode (getColD st c) with
          | none =>
            exfalso
            have hnn := (mode_eq_none_iff _).mp hmode
            have hgd : getColD st c = cs0 := by simp [getColD, hcs0]
            have hnn' : nonNA cs0 = [] := by
              rw [← hgd]
              exact hnn
            have hmiss : missCount st c = cs0.length := by
              unfold missCount
              rw [hgd]
              exact nonNA_eq_nil_countP hnn'
            rcases getCol_exists_mem hcs0 with ⟨d0, hd0mem, _⟩
            have hlen : cs0.length = st.idx.length := hwf.aligned _ hd0mem
            have h1 : missCount st c = total := by
              rw [hmiss, hlen]
              exact htot
            have htne : total ≠ 0 := fun h0 => hm (by rw [h1, h0])
            rw [h1, pctOf_full total htne] at h20
            norm_num at h20
          | some m =>
            have hstep : (cleanStep total t st c).1 = fillCol st c m := by
              unfold cleanStep
              rw [if_neg hm, if_neg (by rw [htg']; simp), if_neg h5, if_pos h20,
                if_neg hnum, hmode]
            rw [hstep]
            refine ⟨fun c'' hne' => getCol_fillCol_ne st c c'' _ hne', Or.inl ?_⟩
            unfold missCount getColD
            rw [getCol_fillCol_self, hcs0]
            simp only [Option.map_some', Option.getD_some]
            exact countP_fill_zero (nonNA_isna_false (mode_mem hmode)) cs0
      · by_cases h50 : 50 ≤ pctOf (missCount st c) total
        · -- the column is dropped entirely
          have hstep : (cleanStep total t st c).1 = dropColumn st c := by
            unfold cleanStep
            rw [if_neg hm, if_neg (by rw [htg']; simp), if_neg h5, if_neg h20,
              if_pos h50]
          rw [hstep]
          refine ⟨fun c'' hne' => getCol_dropColumn_ne st c c'' hne', Or.inl ?_⟩
          unfold missCount getColD
          rw [getCol_dropColumn_self]
          rfl
        · -- deferred band: the state is unchanged
          have hstep : (cleanStep total t st c).1 = st := by
            unfold cleanStep
            rw [if_neg hm, if_neg (by rw [htg']; simp), if_neg h5, if_neg h20,
              if_neg h50]
          rw [hstep]
          exact ⟨fun _ _ => rfl, Or.inr ⟨htg', h20, h50⟩⟩

theorem pass1_good (total : ℕ) (t : Option String) :
    ∀ (cs : List String) (st : DF), WFdf st → nrows st = total →
      nrows (sacAux total t st cs).1 = nrows st →
      (∀ c ∈ colNames st, c ∉ cs → GoodCol total t st c) →
      WFdf (sacAux total t st cs).1 ∧
      (∀ c ∈ colNames (sacAux total t st cs).1,
        GoodCol total t (sacAux total t st cs).1 c) := by
  intro cs
  induction cs with
  | nil =>
    intro st hwf _ _ hinv
    exact ⟨hwf, fun c hc => hinv c hc (by simp)⟩
  | cons c cs ih =>
    intro st hwf htot hpres hinv
    obtain ⟨hp1, hp2⟩ := sacAux_preserved_head total t st c cs hpres
    have hwf' : WFdf (cleanStep total t st c).1 := WF_cleanStep hwf total t c
    have htot' : nrows (cleanStep total t st c).1 = total := by rw [hp1, htot]
    obtain ⟨hpresCols, hgoodc⟩ := cleanStep_no_drop total t st c hwf htot hp1
    have hinv' : ∀ c'' ∈ colNames (cleanStep total t st c).1, c'' ∉ cs →
        GoodCol total t (cleanStep total t st c).1 c'' := by
      intro c'' hc'' hnotin
      by_cases hceq : c'' = c
      · subst hceq
        exact hgoodc
      · have hmc : missCount (cleanStep total t st c).1 c'' = missCount st c'' := by
          unfold missCount getColD
          rw [hpresCols c'' hceq]
        have hc''st : c'' ∈ colNames st :=
          cleanStep_names_subset total t st c c'' hc''
        have hg := hinv c'' hc''st (by simp [hceq, hnotin])
        unfold GoodCol at hg ⊢
        rw [hmc]
        exact hg
    exact ih (cleanStep total t st c).1 hwf' htot' hp2 hinv'

theorem pass2_identity (total : ℕ) (t : Option String) :
    ∀ (cs : List String) (st : DF),
      (∀ c ∈ colNames st, GoodCol total t st c) →
      (sacAux total t st cs).1 = st := by
  intro cs
  induction cs with
  | nil => intro st _; rfl
  | cons c cs ih =>
    intro st hgood
    have hstep : (cleanStep total t st c).1 = st := by
      by_cases hc : c ∈ colNames st
      · by_cases hm : missCount st c = 0
        · unfold cleanStep
          rw [if_pos hm]
        · rcases hgood c hc with h0 | ⟨ht', h20, h50⟩
          · exact absurd h0 hm
          · unfold cleanStep
            rw [if_neg hm, if_neg (by rw [ht']; simp),
              if_neg (fun h5 => h20 (lt_trans h5 (by norm_num))), if_neg h20,
              if_neg h50]
      · have hm : missCount st c = 0 := by
          unfold missCount getColD
          cases hg : getCol st c with
          | none => rfl
          | some cs0 => exact absurd (getCol_some_mem hg) hc
        unfold cleanStep
        rw [if_pos hm]
    show (sacAux total t (cleanStep total t st c).1 cs).1 = st
    rw [hstep]
    exact ih st hgood

/-- Claim C5 (corrected): `auto_clean` is *not* idempotent in general (see
`c5_counterexample`: a column deferred in the 20-50% band is re-logged and
can even be dropped by a second call once the first call's row drops have
raised its percentage to 50%).  What does hold: whenever the first call
dropped no rows, the second call returns its input dataset unchanged — every
column then either has no missing values left or sits in the same deferred
band, and every step of the second pass is a no-op on the frame. -/
theorem c5_conditional_idempotence (df : DF) (t : Option String) (hwf : WFdf df)
    (hn : nrows (standard_auto_cleaning df t).1 = nrows df) :
    (standard_auto_cleaning (standard_auto_cleaning df t).1 t).1 =
      (standard_auto_cleaning df t).1 := by
  obtain ⟨hwf1, hgood⟩ := pass1_good (nrows df) t (colNames df) df hwf rfl hn
    (fun c hc hnc => absurd hc hnc)
  show (sacAux (nrows (standard_auto_cleaning df t).1) t
      (standard_auto_cleaning df t).1 (colNames (standard_auto_cleaning df t).1)).1 =
    (standard_auto_cleaning df t).1
  rw [show nrows (standard_auto_cleaning df t).1 = nrows df from hn]
  exact pass2_identity (nrows df) t (colNames (standard_auto_cleaning df t).1)
    (standard_auto_cleaning df t).1 hgood

/-- Counterexample for C5 as stated: on `dfC5`, the first call drops one row
(column `A`, 4.76%) and defers `B` (10 of 21 missing, 47.6%).  The second
call is *not* a no-op with an empty log: `B` is now 10 missing out of 20 rows
— exactly 50% — so the second call logs a further entry and drops the whole
column, returning a different dataset. -/
theorem c5_counterexample :
    (standard_auto_cleaning dfC5 none).2[1]? =
      some ⟨"B", 10, mkRat 238 5, CAction.leftUnchanged⟩ ∧
    (standard_auto_cleaning (standard_auto_cleaning dfC5 none).1 none).2 =
      [⟨"B", 10, 50, CAction.colDropped⟩] ∧
    (standard_auto_cleaning (standard_auto_cleaning dfC5 none).1 none).1 ≠
      (standard_auto_cleaning dfC5 none).1 := by
  refine ⟨by rfl, by rfl, by decide⟩

/-- Witness for C5's amended theorem: a 10-row frame whose only missing value
is imputed (no rows dropped) — the second call changes nothing. -/
theorem c5_witness :
    nrows (standard_auto_cleaning dfC5w none).1 = nrows dfC5w ∧
    (standard_auto_cleaning (standard_auto_cleaning dfC5w none).1 none).1 =
      (standard_auto_cleaning dfC5w none).1 :=
  ⟨by rfl,
   c5_conditional_idempotence dfC5w none ⟨by decide, by decide, by decide⟩ (by rfl)⟩

end CD
